import Mathlib

/-!
Shallow embedding of the contract-grammar layer of the lunarity parser
(`src/core/src/parser/contract.rs`).

The grammar functions (`contract_definition`, `contract_part`, `visibility`,
`event_definition`, `indexed_parameter`) are translated directly from the
source.  The supporting token-cursor operations (`consume`,
`start_then_consume`, `expect`, `expect_end`, `expect_str_node`, `allow`,
`error`) and the external type-name probe live outside the given source file;
they are modelled from the spec (sections 4.1, 6 and 7) with the shapes the
source forces on them (`expect_str_node` returns a plain node, so a mismatch
records a diagnostic without aborting the construct).

A token stream is a list of positioned tokens; the arena is the identity
(nodes are plain values, lists are Lean lists with append at the tail, which
preserves order and the identity of already-pushed elements).  The source's
`Node` field `end` is spelled `stop` here because `end` is a Lean keyword.
-/

set_option linter.unusedVariables false

namespace Lunarity

/-- Lexical token kinds used by this grammar subset (from the lexer, which is
external to the given source file).  `EndOfProgram` is the cursor's sentinel
when the stream is exhausted. -/
inductive Token where
  | DeclarationContract
  | DeclarationEvent
  | Identifier
  | KeywordIs
  | KeywordAnonymous
  | KeywordIndexed
  | KeywordPublic
  | KeywordInternal
  | KeywordPrivate
  | KeywordConstant
  | Comma
  | Semicolon
  | BraceOpen
  | BraceClose
  | ParenOpen
  | ParenClose
  | TypeBool
  | TypeInt (bytes : Nat)
  | TypeUint (bytes : Nat)
  | TypeByte (bytes : Nat)
  | EndOfProgram
deriving DecidableEq, Repr

/-- A positioned token: kind, `[start, stop)` byte offsets, and source text. -/
structure Tok where
  kind : Token
  start : Nat
  stop : Nat
  text : String
deriving DecidableEq, Repr

/-- `Node<T>`: payload plus `[start, end)` byte-offset span.  The source field
`end` is called `stop` (Lean keyword clash). -/
structure Node (α : Type) where
  start : Nat
  stop : Nat
  value : α
deriving DecidableEq, Repr

/-- Elementary type names produced by the external type-name parser (the
variants exercised by this grammar subset's tests). -/
inductive ElementaryTypeName where
  | Bool
  | Int (bytes : Nat)
  | Uint (bytes : Nat)
  | Byte (bytes : Nat)
deriving DecidableEq, Repr

/-- Visibility of a state variable (from `ast`). -/
inductive Visibility where
  | Unspecified
  | Public
  | Internal
  | Private
  | Constant
deriving DecidableEq, Repr

/-- Event parameter: type name, `indexed` flag, name (from `ast`). -/
structure IndexedParameter where
  indexed : Bool
  type_name : Node ElementaryTypeName
  name : Node String
deriving DecidableEq, Repr

/-- Event definition: `anonymous` flag, name, parameter list (from `ast`). -/
structure EventDefinition where
  anonymous : Bool
  name : Node String
  params : List (Node IndexedParameter)
deriving DecidableEq, Repr

/-- State-variable declaration; `init` is never populated by this grammar
subset (expression nodes are external, so the payload type is opaque). -/
structure StateVariableDeclaration where
  type_name : Node ElementaryTypeName
  visibility : Visibility
  name : Node String
  init : Option (Node Unit)
deriving DecidableEq, Repr

/-- Closed tagged variant of contract-body parts in scope. -/
inductive ContractPart where
  | EventDefinition (e : EventDefinition)
  | StateVariableDeclaration (s : StateVariableDeclaration)
deriving DecidableEq, Repr

/-- Contract definition: name, inheritance list, body parts (from `ast`). -/
structure ContractDefinition where
  name : Node String
  inherits : List (Node String)
  body : List (Node ContractPart)
deriving DecidableEq, Repr

/-- Parser state: the remaining token stream and the diagnostics recorded so
far (start offsets, in order of recording).  The arena is implicit. -/
structure Parser where
  tokens : List Tok
  errors : List Nat
deriving DecidableEq, Repr

/-- Modelled from the spec: the token cursor's current token; when the stream
is exhausted it presents the `EndOfProgram` sentinel. -/
def Parser.current (p : Parser) : Tok :=
  match p.tokens with
  | [] => ⟨Token.EndOfProgram, 0, 0, ""⟩
  | t :: _ => t

/-- Modelled from the spec: `consume` advances one token. -/
def Parser.consume (p : Parser) : Parser :=
  { p with tokens := p.tokens.tail }

/-- Modelled from the spec: `error()` records a diagnostic at the current
cursor position; non-fatal. -/
def Parser.error (p : Parser) : Parser :=
  { p with errors := p.errors ++ [p.current.start] }

/-- Modelled from the spec: `allow(token)` consumes the current token and
returns `true` when it matches, otherwise consumes nothing. -/
def Parser.allow (p : Parser) (t : Token) : Bool × Parser :=
  if p.current.kind = t then (true, p.consume) else (false, p)

/-- Modelled from the spec: the "expect" check — on match, consume; on
mismatch, record a diagnostic (the construct is not aborted: the source's
return types show parsing continues). -/
def Parser.expect (p : Parser) (t : Token) : Parser :=
  if p.current.kind = t then p.consume else p.error

/-- Modelled from the spec: `expect_end` reads the current token's end offset
(the true last-consumed offset used to close a span), then expects. -/
def Parser.expect_end (p : Parser) (t : Token) : Nat × Parser :=
  (p.current.stop, p.expect t)

/-- Modelled from the spec: `expect_str_node` builds an identifier node from
the current token's span and text, then expects. -/
def Parser.expect_str_node (p : Parser) (t : Token) : Node String × Parser :=
  (⟨p.current.start, p.current.stop, p.current.text⟩, p.expect t)

/-- Modelled from the spec: returns the current token's start offset and
advances (anchors a construct's span to its leading keyword). -/
def Parser.start_then_consume (p : Parser) : Nat × Parser :=
  (p.current.start, p.consume)

/-- Modelled from the spec: which token kinds the external type-name parser
accepts in this grammar subset. -/
def tokenTypeName : Token → Option ElementaryTypeName
  | Token.TypeBool => some ElementaryTypeName.Bool
  | Token.TypeInt b => some (ElementaryTypeName.Int b)
  | Token.TypeUint b => some (ElementaryTypeName.Uint b)
  | Token.TypeByte b => some (ElementaryTypeName.Byte b)
  | _ => none

/-- Modelled from the spec: the external type-name parser — attempts a type
reference at the current position and fails without consuming on mismatch. -/
def Parser.type_name (p : Parser) : Option (Node ElementaryTypeName) × Parser :=
  match tokenTypeName p.current.kind with
  | some ty => (some ⟨p.current.start, p.current.stop, ty⟩, p.consume)
  | none => (none, p)

/-- Kind of the first token of a stream (`EndOfProgram` when empty). -/
def headKind : List Tok → Token
  | [] => Token.EndOfProgram
  | t :: _ => t.kind

theorem Parser.current_kind_eq_headKind (p : Parser) :
    p.current.kind = headKind p.tokens := by
  cases h : p.tokens <;> simp [Parser.current, headKind, h]

theorem Parser.tokens_ne_nil_of_current (p : Parser)
    (h : p.current.kind ≠ Token.EndOfProgram) : p.tokens ≠ [] := by
  intro hnil
  apply h
  simp [Parser.current, hnil]

theorem Parser.consume_tokens_le (p : Parser) :
    p.consume.tokens.length ≤ p.tokens.length := by
  simp [Parser.consume, List.length_tail]

theorem Parser.consume_tokens_lt (p : Parser) (h : p.tokens ≠ []) :
    p.consume.tokens.length < p.tokens.length := by
  simp only [Parser.consume, List.length_tail]
  exact Nat.sub_lt (List.length_pos.mpr h) Nat.one_pos

theorem Parser.error_tokens (p : Parser) : p.error.tokens = p.tokens := rfl

theorem Parser.expect_tokens_le (p : Parser) (t : Token) :
    (p.expect t).tokens.length ≤ p.tokens.length := by
  unfold Parser.expect
  split
  · exact p.consume_tokens_le
  · simp [Parser.error_tokens]

theorem Parser.expect_str_node_tokens_le (p : Parser) (t : Token) :
    (p.expect_str_node t).2.tokens.length ≤ p.tokens.length :=
  p.expect_tokens_le t

theorem Parser.allow_tokens_le (p : Parser) (t : Token) :
    (p.allow t).2.tokens.length ≤ p.tokens.length := by
  unfold Parser.allow
  split
  · exact p.consume_tokens_le
  · simp

theorem Parser.type_name_tokens_le (p : Parser) :
    (p.type_name).2.tokens.length ≤ p.tokens.length := by
  unfold Parser.type_name
  split
  · exact p.consume_tokens_le
  · simp

theorem Parser.type_name_some_tokens_lt (p : Parser) (n : Node ElementaryTypeName)
    (q : Parser) (h : p.type_name = (some n, q)) :
    q.tokens.length < p.tokens.length := by
  unfold Parser.type_name at h
  split at h
  · rename_i ty hty
    injection h with h1 h2
    subst h2
    apply p.consume_tokens_lt
    apply p.tokens_ne_nil_of_current
    intro hk
    rw [hk] at hty
    simp [tokenTypeName] at hty
  · injection h with h1 _
    exact absurd h1 (by simp)

/-- `indexed_parameter` (translated from the source): require a type name
(failing without commitment when the probe fails), optionally consume the
`indexed` keyword, require an identifier; the node spans from the type name's
start to the identifier node's end. -/
def Parser.indexed_parameter (p : Parser) : Option (Node IndexedParameter) × Parser :=
  match p.type_name with
  | (none, p1) => (none, p1)
  | (some type_name, p1) =>
    let ra := p1.allow Token.KeywordIndexed
    let rn := ra.2.expect_str_node Token.Identifier
    (some ⟨type_name.start, rn.1.stop, ⟨ra.1, type_name, rn.1⟩⟩, rn.2)

theorem Parser.indexed_parameter_tokens_le (p : Parser) :
    (p.indexed_parameter).2.tokens.length ≤ p.tokens.length := by
  unfold Parser.indexed_parameter
  cases h : p.type_name with
  | mk o p1 =>
    cases o with
    | none =>
      have : p1 = (p.type_name).2 := by rw [h]
      simp only []
      rw [this]
      exact p.type_name_tokens_le
    | some tn =>
      simp only []
      calc ((p1.allow Token.KeywordIndexed).2.expect_str_node Token.Identifier).2.tokens.length
          ≤ (p1.allow Token.KeywordIndexed).2.tokens.length :=
            Parser.expect_str_node_tokens_le _ _
        _ ≤ p1.tokens.length := Parser.allow_tokens_le _ _
        _ ≤ p.tokens.length := by
            have : p1 = (p.type_name).2 := by rw [h]
            rw [this]
            exact p.type_name_tokens_le

theorem Parser.indexed_parameter_some_tokens_lt (p : Parser)
    (n : Node IndexedParameter) (q : Parser)
    (h : p.indexed_parameter = (some n, q)) :
    q.tokens.length < p.tokens.length := by
  unfold Parser.indexed_parameter at h
  cases ht : p.type_name with
  | mk o p1 =>
    rw [ht] at h
    cases o with
    | none => simp at h
    | some tn =>
      simp only [] at h
      injection h with h1 h2
      calc q.tokens.length
          = ((p1.allow Token.KeywordIndexed).2.expect_str_node Token.Identifier).2.tokens.length := by
            rw [h2]
        _ ≤ (p1.allow Token.KeywordIndexed).2.tokens.length :=
            Parser.expect_str_node_tokens_le _ _
        _ ≤ p1.tokens.length := Parser.allow_tokens_le _ _
        _ < p.tokens.length := p.type_name_some_tokens_lt tn p1 ht

/-- The comma-driven continuation loop of `event_definition` (the source's
`while self.allow(Token::Comma)` over `indexed_parameter`): once a comma is
consumed, a parameter is mandatory — on failure a diagnostic is recorded and
the loop continues.  `b` is the list-builder state (append at the tail). -/
def Parser.event_params_loop (p : Parser) (b : List (Node IndexedParameter)) :
    List (Node IndexedParameter) × Parser :=
  if h : p.current.kind = Token.Comma then
    match hr : (p.consume).indexed_parameter with
    | (some param, p2) => p2.event_params_loop (b ++ [param])
    | (none, p2) => (p2.error).event_params_loop b
  else
    (b, p)
termination_by p.tokens.length
decreasing_by
  · calc p2.tokens.length
        < (p.consume).tokens.length :=
          Parser.indexed_parameter_some_tokens_lt _ param p2 hr
      _ ≤ p.tokens.length := p.consume_tokens_le
  · have h2 : p2 = ((p.consume).indexed_parameter).2 := by rw [hr]
    calc (p2.error).tokens.length
        = p2.tokens.length := by rw [Parser.error_tokens]
      _ ≤ (p.consume).tokens.length := by
          rw [h2]
          exact Parser.indexed_parameter_tokens_le _
      _ < p.tokens.length := by
          apply p.consume_tokens_lt
          apply p.tokens_ne_nil_of_current
          rw [h]
          intro hc
          cases hc

theorem Parser.event_params_loop_stop (p : Parser)
    (b : List (Node IndexedParameter)) (h : p.current.kind ≠ Token.Comma) :
    p.event_params_loop b = (b, p) := by
  rw [Parser.event_params_loop]
  simp [h]

theorem Parser.event_params_loop_step_some (p : Parser)
    (b : List (Node IndexedParameter)) (param : Node IndexedParameter)
    (p2 : Parser) (h : p.current.kind = Token.Comma)
    (hr : (p.consume).indexed_parameter = (some param, p2)) :
    p.event_params_loop b = p2.event_params_loop (b ++ [param]) := by
  rw [Parser.event_params_loop]
  rw [dif_pos h]
  split
  · rename_i param' p2' heq
    rw [hr] at heq
    injection heq with h1 h2
    injection h1 with h1
    subst h1 h2
    rfl
  · rename_i p2' heq
    rw [hr] at heq
    simp at heq

theorem Parser.event_params_loop_step_none (p : Parser)
    (b : List (Node IndexedParameter)) (p2 : Parser)
    (h : p.current.kind = Token.Comma)
    (hr : (p.consume).indexed_parameter = (none, p2)) :
    p.event_params_loop b = (p2.error).event_params_loop b := by
  rw [Parser.event_params_loop]
  rw [dif_pos h]
  split
  · rename_i param' p2' heq
    rw [hr] at heq
    simp at heq
  · rename_i p2' heq
    rw [hr] at heq
    injection heq with h1 h2
    subst h2
    rfl

theorem Parser.event_params_loop_tokens_le (p : Parser)
    (b : List (Node IndexedParameter)) :
    (p.event_params_loop b).2.tokens.length ≤ p.tokens.length := by
  induction p, b using Parser.event_params_loop.induct with
  | case1 p b h param p2 hr ih =>
    rw [p.event_params_loop_step_some b param p2 h hr]
    calc (p2.event_params_loop (b ++ [param])).2.tokens.length
        ≤ p2.tokens.length := ih
      _ ≤ (p.consume).tokens.length := by
          have h2 : p2 = ((p.consume).indexed_parameter).2 := by rw [hr]
          rw [h2]
          exact Parser.indexed_parameter_tokens_le _
      _ ≤ p.tokens.length := p.consume_tokens_le
  | case2 p b h p2 hr ih =>
    rw [p.event_params_loop_step_none b p2 h hr]
    calc ((p2.error).event_params_loop b).2.tokens.length
        ≤ (p2.error).tokens.length := ih
      _ = p2.tokens.length := by rw [Parser.error_tokens]
      _ ≤ (p.consume).tokens.length := by
          have h2 : p2 = ((p.consume).indexed_parameter).2 := by rw [hr]
          rw [h2]
          exact Parser.indexed_parameter_tokens_le _
      _ ≤ p.tokens.length := p.consume_tokens_le
  | case3 p b h =>
    rw [p.event_params_loop_stop b h]

/-- `visibility` (translated from the source): maps the four visibility
keywords to their variants, consuming exactly one token; anything else yields
`Unspecified` and consumes nothing. -/
def Parser.visibility (p : Parser) : Visibility × Parser :=
  match p.current.kind with
  | Token.KeywordPublic => (Visibility.Public, p.consume)
  | Token.KeywordInternal => (Visibility.Internal, p.consume)
  | Token.KeywordPrivate => (Visibility.Private, p.consume)
  | Token.KeywordConstant => (Visibility.Constant, p.consume)
  | _ => (Visibility.Unspecified, p)

theorem Parser.visibility_tokens_le (p : Parser) :
    (p.visibility).2.tokens.length ≤ p.tokens.length := by
  unfold Parser.visibility
  split
  · exact p.consume_tokens_le
  · exact p.consume_tokens_le
  · exact p.consume_tokens_le
  · exact p.consume_tokens_le
  · simp

/-- The parameter-list stage of `event_definition` (the source's
`let params = match self.indexed_parameter() { ... }` expression): one
attempted first parameter seeds the non-empty builder and commas drive the
continuation loop; a failed first attempt yields the canonical empty list. -/
def Parser.event_params (p : Parser) : List (Node IndexedParameter) × Parser :=
  match p.indexed_parameter with
  | (some param, p2) => p2.event_params_loop [param]
  | (none, p2) => (([] : List (Node IndexedParameter)), p2)

theorem Parser.event_params_tokens_le (p : Parser) :
    (p.event_params).2.tokens.length ≤ p.tokens.length := by
  unfold Parser.event_params
  split
  · rename_i param p2 hr
    calc (p2.event_params_loop [param]).2.tokens.length
        ≤ p2.tokens.length := Parser.event_params_loop_tokens_le p2 [param]
      _ ≤ p.tokens.length := by
          have h2 : p2 = (p.indexed_parameter).2 := by rw [hr]
          rw [h2]
          exact Parser.indexed_parameter_tokens_le p
  · rename_i p2 hr
    have h2 : p2 = (p.indexed_parameter).2 := by rw [hr]
    simp only []
    rw [h2]
    exact Parser.indexed_parameter_tokens_le p

/-- `event_definition` (translated from the source): consume `event`, require
identifier and `(`; parse the parameter list; require `)`, optionally consume
`anonymous`, require `;`; the node spans from the `event` keyword's start to
the `;`'s end.  Always produces a node (the source has no early return). -/
def Parser.event_definition (p : Parser) : Option (Node ContractPart) × Parser :=
  let rs := p.start_then_consume
  let rn := rs.2.expect_str_node Token.Identifier
  let p1 := rn.2.expect Token.ParenOpen
  let rp := p1.event_params
  let p3 := rp.2.expect Token.ParenClose
  let ra := p3.allow Token.KeywordAnonymous
  let re := ra.2.expect_end Token.Semicolon
  (some ⟨rs.1, re.1, ContractPart.EventDefinition ⟨ra.1, rn.1, rp.1⟩⟩, re.2)

theorem Parser.event_definition_tokens_lt (p : Parser) (h : p.tokens ≠ []) :
    (p.event_definition).2.tokens.length < p.tokens.length := by
  unfold Parser.event_definition
  dsimp only [Parser.expect_end, Parser.expect_str_node, Parser.start_then_consume]
  refine Nat.lt_of_le_of_lt (Parser.expect_tokens_le _ _) ?_
  refine Nat.lt_of_le_of_lt (Parser.allow_tokens_le _ _) ?_
  refine Nat.lt_of_le_of_lt (Parser.expect_tokens_le _ _) ?_
  refine Nat.lt_of_le_of_lt (Parser.event_params_tokens_le _) ?_
  refine Nat.lt_of_le_of_lt (Parser.expect_tokens_le _ _) ?_
  refine Nat.lt_of_le_of_lt (Parser.expect_tokens_le _ _) ?_
  exact p.consume_tokens_lt h

/-- `contract_part` (translated from the source): LL(1) dispatch — on the
`event` keyword delegate to `event_definition`; otherwise probe the external
type-name parser (the only non-committing lookahead: its failure, without
consuming, is the sole no-item signal); then optional visibility, required
identifier, required `;`; the node spans from the type name's start to the
`;`'s end, with `init` left unset. -/
def Parser.contract_part (p : Parser) : Option (Node ContractPart) × Parser :=
  match p.current.kind with
  | Token.DeclarationEvent => p.event_definition
  | _ =>
    match p.type_name with
    | (none, p1) => (none, p1)
    | (some type_name, p1) =>
      let rv := p1.visibility
      let rn := rv.2.expect_str_node Token.Identifier
      let re := rn.2.expect_end Token.Semicolon
      (some ⟨type_name.start, re.1,
        ContractPart.StateVariableDeclaration ⟨type_name, rv.1, rn.1, none⟩⟩, re.2)

theorem Parser.contract_part_some_tokens_lt (p : Parser) (n : Node ContractPart)
    (q : Parser) (h : p.contract_part = (some n, q)) :
    q.tokens.length < p.tokens.length := by
  unfold Parser.contract_part at h
  split at h
  · rename_i hk
    have hne : p.tokens ≠ [] := by
      apply p.tokens_ne_nil_of_current
      rw [hk]
      intro hc
      cases hc
    have := p.event_definition_tokens_lt hne
    rw [h] at this
    exact this
  · split at h
    · simp at h
    · rename_i tn p1 ht
      dsimp only [Parser.expect_end, Parser.expect_str_node] at h
      injection h with h1 h2
      subst h2
      refine Nat.lt_of_le_of_lt (Parser.expect_tokens_le _ _) ?_
      refine Nat.lt_of_le_of_lt (Parser.expect_tokens_le _ _) ?_
      refine Nat.lt_of_le_of_lt (Parser.visibility_tokens_le _) ?_
      exact p.type_name_some_tokens_lt tn p1 ht

/-- The comma-driven loop over the inheritance identifiers (the source's
`while self.allow(Token::Comma)` with `expect_str_node(Token::Identifier)`
pushed into the non-empty builder). -/
def Parser.inherits_loop (p : Parser) (b : List (Node String)) :
    List (Node String) × Parser :=
  if h : p.current.kind = Token.Comma then
    let rn := (p.consume).expect_str_node Token.Identifier
    rn.2.inherits_loop (b ++ [rn.1])
  else
    (b, p)
termination_by p.tokens.length
decreasing_by
  refine Nat.lt_of_le_of_lt (Parser.expect_str_node_tokens_le _ _) ?_
  apply p.consume_tokens_lt
  apply p.tokens_ne_nil_of_current
  rw [h]
  intro hc
  cases hc

theorem Parser.inherits_loop_stop (p : Parser) (b : List (Node String))
    (h : p.current.kind ≠ Token.Comma) : p.inherits_loop b = (b, p) := by
  rw [Parser.inherits_loop]
  simp [h]

theorem Parser.inherits_loop_step (p : Parser) (b : List (Node String))
    (h : p.current.kind = Token.Comma) :
    p.inherits_loop b =
      ((p.consume).expect_str_node Token.Identifier).2.inherits_loop
        (b ++ [((p.consume).expect_str_node Token.Identifier).1]) := by
  rw [Parser.inherits_loop]
  rw [dif_pos h]

theorem Parser.inherits_loop_tokens_le (p : Parser) (b : List (Node String)) :
    (p.inherits_loop b).2.tokens.length ≤ p.tokens.length := by
  induction p, b using Parser.inherits_loop.induct with
  | case1 p b h rn ih =>
    rw [p.inherits_loop_step b h]
    refine Nat.le_trans ih ?_
    refine Nat.le_trans (Parser.expect_str_node_tokens_le _ _) ?_
    exact p.consume_tokens_le
  | case2 p b h =>
    rw [p.inherits_loop_stop b h]

/-- The contract-body loop (the source's
`while let Some(part) = self.contract_part()` pushing into the growable
builder): a no-item result from `contract_part` is the sole exit signal. -/
def Parser.body_loop (p : Parser) (b : List (Node ContractPart)) :
    List (Node ContractPart) × Parser :=
  match hr : p.contract_part with
  | (some part, p1) => p1.body_loop (b ++ [part])
  | (none, p1) => (b, p1)
termination_by p.tokens.length
decreasing_by
  exact p.contract_part_some_tokens_lt part p1 hr

theorem Parser.body_loop_step (p : Parser) (b : List (Node ContractPart))
    (part : Node ContractPart) (p1 : Parser)
    (hr : p.contract_part = (some part, p1)) :
    p.body_loop b = p1.body_loop (b ++ [part]) := by
  rw [Parser.body_loop]
  split
  · rename_i part' p1' heq
    rw [hr] at heq
    injection heq with h1 h2
    injection h1 with h1
    subst h1 h2
    rfl
  · rename_i p1' heq
    rw [hr] at heq
    simp at heq

theorem Parser.body_loop_stop (p : Parser) (b : List (Node ContractPart))
    (p1 : Parser) (hr : p.contract_part = (none, p1)) :
    p.body_loop b = (b, p1) := by
  rw [Parser.body_loop]
  split
  · rename_i part' p1' heq
    rw [hr] at heq
    simp at heq
  · rename_i p1' heq
    rw [hr] at heq
    injection heq with h1 h2
    subst h2
    rfl

/-- The inheritance clause of `contract_definition` (the source's
`let inherits = if self.allow(Token::KeywordIs) { ... } else
{ NodeList::empty() }` expression). -/
def Parser.contract_inherits (p : Parser) : List (Node String) × Parser :=
  let ra := p.allow Token.KeywordIs
  if ra.1 then
    let rn := ra.2.expect_str_node Token.Identifier
    rn.2.inherits_loop [rn.1]
  else
    (([] : List (Node String)), ra.2)

theorem Parser.contract_inherits_tokens_le (p : Parser) :
    (p.contract_inherits).2.tokens.length ≤ p.tokens.length := by
  unfold Parser.contract_inherits
  dsimp only
  split
  · refine Nat.le_trans (Parser.inherits_loop_tokens_le _ _) ?_
    refine Nat.le_trans (Parser.expect_str_node_tokens_le _ _) ?_
    exact Parser.allow_tokens_le _ _
  · exact Parser.allow_tokens_le _ _

/-- `contract_definition` (translated from the source): record the `contract`
keyword's start and consume it, require the name identifier, parse the
optional inheritance clause, require `{`, loop `contract_part` into the
growable body builder, require the final `}`; the node spans from the
`contract` keyword's start to the `}`'s end.  Always produces a node (the
source has no early return). -/
def Parser.contract_definition (p : Parser) : Option (Node ContractDefinition) × Parser :=
  let rs := p.start_then_consume
  let rn := rs.2.expect_str_node Token.Identifier
  let ri := rn.2.contract_inherits
  let p1 := ri.2.expect Token.BraceOpen
  let rb := p1.body_loop []
  let re := rb.2.expect_end Token.BraceClose
  (some ⟨rs.1, re.1, ⟨rn.1, ri.1, rb.1⟩⟩, re.2)

/-- A run of the parser only consumes tokens from the front of the stream and
only appends diagnostics: `q` is reachable from `p`. -/
def Parser.Evolves (p q : Parser) : Prop :=
  (∃ pre, p.tokens = pre ++ q.tokens) ∧ (∃ e, q.errors = p.errors ++ e)

theorem Parser.Evolves.refl (p : Parser) : p.Evolves p :=
  ⟨⟨[], rfl⟩, ⟨[], by simp⟩⟩

theorem Parser.Evolves.trans {p q r : Parser} (h1 : p.Evolves q)
    (h2 : q.Evolves r) : p.Evolves r := by
  obtain ⟨⟨pre1, ht1⟩, ⟨e1, he1⟩⟩ := h1
  obtain ⟨⟨pre2, ht2⟩, ⟨e2, he2⟩⟩ := h2
  exact ⟨⟨pre1 ++ pre2, by rw [ht1, ht2, List.append_assoc]⟩,
    ⟨e1 ++ e2, by rw [he2, he1, List.append_assoc]⟩⟩

/-- If nothing was recorded across two runs in a row, nothing was recorded
across either. -/
theorem Parser.Evolves.errors_split {p q r : Parser} (h1 : p.Evolves q)
    (h2 : q.Evolves r) (h : r.errors = p.errors) :
    q.errors = p.errors ∧ r.errors = q.errors := by
  obtain ⟨-, ⟨e1, he1⟩⟩ := h1
  obtain ⟨-, ⟨e2, he2⟩⟩ := h2
  rw [he1] at he2
  rw [List.append_assoc] at he2
  have h' : p.errors ++ (e1 ++ e2) = p.errors ++ [] := by
    rw [List.append_nil, ← he2]
    exact h
  obtain ⟨h1nil, h2nil⟩ := List.append_eq_nil.mp (List.append_cancel_left h')
  subst h1nil h2nil
  constructor
  · rw [he1, List.append_nil]
  · rw [he2]
    simp [he1]

theorem Parser.consume_evolves (p : Parser) : p.Evolves p.consume := by
  constructor
  · cases h : p.tokens with
    | nil => exact ⟨[], by simp [Parser.consume, h]⟩
    | cons t rest => exact ⟨[t], by simp [Parser.consume, h]⟩
  · exact ⟨[], by simp [Parser.consume]⟩

theorem Parser.error_evolves (p : Parser) : p.Evolves p.error :=
  ⟨⟨[], rfl⟩, ⟨[p.current.start], rfl⟩⟩

theorem Parser.expect_evolves (p : Parser) (t : Token) :
    p.Evolves (p.expect t) := by
  unfold Parser.expect
  split
  · exact p.consume_evolves
  · exact p.error_evolves

theorem Parser.allow_evolves (p : Parser) (t : Token) :
    p.Evolves (p.allow t).2 := by
  unfold Parser.allow
  split
  · exact p.consume_evolves
  · exact Parser.Evolves.refl p

theorem Parser.expect_str_node_evolves (p : Parser) (t : Token) :
    p.Evolves (p.expect_str_node t).2 :=
  p.expect_evolves t

theorem Parser.expect_end_evolves (p : Parser) (t : Token) :
    p.Evolves (p.expect_end t).2 :=
  p.expect_evolves t

theorem Parser.start_then_consume_evolves (p : Parser) :
    p.Evolves (p.start_then_consume).2 :=
  p.consume_evolves

theorem Parser.type_name_evolves (p : Parser) : p.Evolves (p.type_name).2 := by
  unfold Parser.type_name
  split
  · exact p.consume_evolves
  · exact Parser.Evolves.refl p

theorem Parser.visibility_evolves (p : Parser) : p.Evolves (p.visibility).2 := by
  unfold Parser.visibility
  split
  · exact p.consume_evolves
  · exact p.consume_evolves
  · exact p.consume_evolves
  · exact p.consume_evolves
  · exact Parser.Evolves.refl p

theorem Parser.indexed_parameter_evolves (p : Parser) :
    p.Evolves (p.indexed_parameter).2 := by
  unfold Parser.indexed_parameter
  split
  · rename_i p1 hr
    have : p1 = (p.type_name).2 := by rw [hr]
    subst this
    exact p.type_name_evolves
  · rename_i tn p1 hr
    dsimp only
    have h1 : p.Evolves p1 := by
      have : p1 = (p.type_name).2 := by rw [hr]
      subst this
      exact p.type_name_evolves
    exact h1.trans ((p1.allow_evolves Token.KeywordIndexed).trans
      (Parser.expect_str_node_evolves _ Token.Identifier))

theorem Parser.event_params_loop_evolves (p : Parser)
    (b : List (Node IndexedParameter)) :
    p.Evolves (p.event_params_loop b).2 := by
  induction p, b using Parser.event_params_loop.induct with
  | case1 p b h param p2 hr ih =>
    rw [p.event_params_loop_step_some b param p2 h hr]
    refine Parser.Evolves.trans ?_ ih
    have h2 : p2 = ((p.consume).indexed_parameter).2 := by rw [hr]
    subst h2
    exact (p.consume_evolves).trans (Parser.indexed_parameter_evolves _)
  | case2 p b h p2 hr ih =>
    rw [p.event_params_loop_step_none b p2 h hr]
    refine Parser.Evolves.trans ?_ ih
    have h2 : p2 = ((p.consume).indexed_parameter).2 := by rw [hr]
    subst h2
    exact ((p.consume_evolves).trans (Parser.indexed_parameter_evolves _)).trans
      (Parser.error_evolves _)
  | case3 p b h =>
    rw [p.event_params_loop_stop b h]
    exact Parser.Evolves.refl p

theorem Parser.event_params_evolves (p : Parser) :
    p.Evolves (p.event_params).2 := by
  unfold Parser.event_params
  split
  · rename_i param p2 hr
    have h2 : p2 = (p.indexed_parameter).2 := by rw [hr]
    subst h2
    exact (p.indexed_parameter_evolves).trans (Parser.event_params_loop_evolves _ _)
  · rename_i p2 hr
    have h2 : p2 = (p.indexed_parameter).2 := by rw [hr]
    subst h2
    exact p.indexed_parameter_evolves

theorem Parser.event_definition_evolves (p : Parser) :
    p.Evolves (p.event_definition).2 := by
  unfold Parser.event_definition
  dsimp only [Parser.expect_end, Parser.expect_str_node, Parser.start_then_consume]
  exact ((((((p.consume_evolves).trans (Parser.expect_evolves _ _)).trans
    (Parser.expect_evolves _ _)).trans (Parser.event_params_evolves _)).trans
    (Parser.expect_evolves _ _)).trans (Parser.allow_evolves _ _)).trans
    (Parser.expect_evolves _ _)

theorem Parser.contract_part_evolves (p : Parser) :
    p.Evolves (p.contract_part).2 := by
  unfold Parser.contract_part
  split
  · exact p.event_definition_evolves
  · split
    · rename_i p1 hr
      have : p1 = (p.type_name).2 := by rw [hr]
      subst this
      exact p.type_name_evolves
    · rename_i tn p1 hr
      dsimp only [Parser.expect_end, Parser.expect_str_node]
      have h1 : p.Evolves p1 := by
        have : p1 = (p.type_name).2 := by rw [hr]
        subst this
        exact p.type_name_evolves
      exact ((h1.trans (p1.visibility_evolves)).trans
        (Parser.expect_evolves _ _)).trans (Parser.expect_evolves _ _)

theorem Parser.inherits_loop_evolves (p : Parser) (b : List (Node String)) :
    p.Evolves (p.inherits_loop b).2 := by
  induction p, b using Parser.inherits_loop.induct with
  | case1 p b h rn ih =>
    rw [p.inherits_loop_step b h]
    refine Parser.Evolves.trans ?_ ih
    exact (p.consume_evolves).trans (Parser.expect_str_node_evolves _ _)
  | case2 p b h =>
    rw [p.inherits_loop_stop b h]
    exact Parser.Evolves.refl p

theorem Parser.contract_inherits_evolves (p : Parser) :
    p.Evolves (p.contract_inherits).2 := by
  unfold Parser.contract_inherits
  dsimp only
  split
  · exact ((p.allow_evolves _).trans (Parser.expect_str_node_evolves _ _)).trans
      (Parser.inherits_loop_evolves _ _)
  · exact p.allow_evolves _

theorem Parser.body_loop_evolves (p : Parser) (b : List (Node ContractPart)) :
    p.Evolves (p.body_loop b).2 := by
  induction p, b using Parser.body_loop.induct with
  | case1 p b part p1 hr ih =>
    rw [p.body_loop_step b part p1 hr]
    refine Parser.Evolves.trans ?_ ih
    have : p1 = (p.contract_part).2 := by rw [hr]
    subst this
    exact p.contract_part_evolves
  | case2 p b p1 hr =>
    rw [p.body_loop_stop b p1 hr]
    have : p1 = (p.contract_part).2 := by rw [hr]
    subst this
    exact p.contract_part_evolves

theorem Parser.contract_definition_evolves (p : Parser) :
    p.Evolves (p.contract_definition).2 := by
  unfold Parser.contract_definition
  dsimp only [Parser.expect_end, Parser.expect_str_node, Parser.start_then_consume]
  exact (((((p.consume_evolves).trans (Parser.expect_evolves _ _)).trans
    (Parser.contract_inherits_evolves _)).trans (Parser.expect_evolves _ _)).trans
    (Parser.body_loop_evolves _ _)).trans (Parser.expect_evolves _ _)

theorem Parser.error_errors_ne (p : Parser) : p.error.errors ≠ p.errors := by
  unfold Parser.error
  intro h
  have := congrArg List.length h
  simp at this

theorem Parser.expect_errors_eq_iff (p : Parser) (t : Token) :
    (p.expect t).errors = p.errors ↔ p.current.kind = t := by
  unfold Parser.expect
  split
  · rename_i h
    simp [Parser.consume, h]
  · rename_i h
    constructor
    · intro hh
      exact absurd hh p.error_errors_ne
    · intro hh
      exact absurd hh h

theorem Parser.expect_of_kind (p : Parser) (t : Token)
    (h : p.current.kind = t) : p.expect t = p.consume := by
  unfold Parser.expect
  rw [if_pos h]

theorem Parser.expect_of_ne (p : Parser) (t : Token)
    (h : p.current.kind ≠ t) : p.expect t = p.error := by
  unfold Parser.expect
  rw [if_neg h]

theorem Parser.current_of_cons (p : Parser) (t : Tok) (rest : List Tok)
    (h : p.tokens = t :: rest) : p.current = t := by
  simp [Parser.current, h]

/-- If a run from `p` to `p'` ends with an `expect t` at the intermediate
state `q` and the whole run recorded no diagnostic, then the final `expect`
matched: the last consumed token has kind `t` and everything after it is
exactly `p'`'s remaining stream. -/
theorem Parser.expect_last {p q p' : Parser} {t : Token}
    (hev : p.Evolves q) (hp' : p' = q.expect t)
    (he : p'.errors = p.errors) (ht : t ≠ Token.EndOfProgram) :
    ∃ pre tk, p.tokens = pre ++ tk :: p'.tokens ∧ tk.kind = t ∧ q.current = tk := by
  have hqp' : q.Evolves p' := by
    rw [hp']
    exact q.expect_evolves t
  obtain ⟨h1, h2⟩ := Parser.Evolves.errors_split hev hqp' he
  have hk : q.current.kind = t := by
    apply (q.expect_errors_eq_iff t).mp
    rw [← hp']
    exact h2
  have hne : q.tokens ≠ [] := q.tokens_ne_nil_of_current (by rw [hk]; exact ht)
  cases hq : q.tokens with
  | nil => exact absurd hq hne
  | cons tk rest =>
    have hc : q.current = tk := q.current_of_cons tk rest hq
    have hp'2 : p' = q.consume := by rw [hp', q.expect_of_kind t hk]
    have hpt : p'.tokens = rest := by
      rw [hp'2]
      simp [Parser.consume, hq]
    obtain ⟨⟨pre, hpre⟩, -⟩ := hev
    refine ⟨pre, tk, ?_, ?_, hc⟩
    · rw [hpre, hq, hpt]
    · rw [← hc]
      exact hk

/-- Span/consumption shape of a diagnostics-free `contract_definition` run:
the node starts at the entry token's start offset and ends at the end offset
of the last consumed token, which is the closing `}`. -/
theorem Parser.contract_definition_shape (p : Parser) (n : Node ContractDefinition)
    (p' : Parser) (hs : p.contract_definition = (some n, p'))
    (he : p'.errors = p.errors) :
    n.start = p.current.start ∧
      ∃ pre t, p.tokens = pre ++ t :: p'.tokens ∧ t.kind = Token.BraceClose ∧
        n.stop = t.stop := by
  unfold Parser.contract_definition at hs
  dsimp only at hs
  injection hs with hs1 hs2
  injection hs1 with hs1
  subst hs2
  subst hs1
  refine ⟨rfl, ?_⟩
  have hev : p.Evolves (((((p.start_then_consume).2.expect_str_node
      Token.Identifier).2.contract_inherits).2.expect Token.BraceOpen).body_loop []).2 :=
    ((((p.start_then_consume_evolves).trans
      (Parser.expect_str_node_evolves _ _)).trans
      (Parser.contract_inherits_evolves _)).trans
      (Parser.expect_evolves _ _)).trans (Parser.body_loop_evolves _ _)
  obtain ⟨pre, tk, h1, h2, h3⟩ :=
    Parser.expect_last hev rfl he (by intro hc; cases hc)
  exact ⟨pre, tk, h1, h2, by rw [← h3]; rfl⟩

/-- Span/consumption shape of a diagnostics-free `event_definition` run: the
node starts at the entry (`event`) token's start offset and ends at the end
offset of the last consumed token, which is the terminating `;`. -/
theorem Parser.event_definition_shape (p : Parser) (n : Node ContractPart)
    (p' : Parser) (hs : p.event_definition = (some n, p'))
    (he : p'.errors = p.errors) :
    n.start = p.current.start ∧
      ∃ pre t, p.tokens = pre ++ t :: p'.tokens ∧ t.kind = Token.Semicolon ∧
        n.stop = t.stop := by
  unfold Parser.event_definition at hs
  dsimp only at hs
  injection hs with hs1 hs2
  injection hs1 with hs1
  subst hs2
  subst hs1
  refine ⟨rfl, ?_⟩
  have hev : p.Evolves ((((((p.start_then_consume).2.expect_str_node
      Token.Identifier).2.expect Token.ParenOpen).event_params).2.expect
      Token.ParenClose).allow Token.KeywordAnonymous).2 :=
    (((((p.start_then_consume_evolves).trans
      (Parser.expect_str_node_evolves _ _)).trans
      (Parser.expect_evolves _ _)).trans
      (Parser.event_params_evolves _)).trans
      (Parser.expect_evolves _ _)).trans (Parser.allow_evolves _ _)
  obtain ⟨pre, tk, h1, h2, h3⟩ :=
    Parser.expect_last hev rfl he (by intro hc; cases hc)
  exact ⟨pre, tk, h1, h2, by rw [← h3]; rfl⟩

/-- Span/consumption shape of a diagnostics-free state-variable
`contract_part` run (entry token not the `event` keyword): the node starts at
the entry (type) token's start offset and ends at the end offset of the last
consumed token, which is the terminating `;`. -/
theorem Parser.contract_part_statevar_shape (p : Parser) (n : Node ContractPart)
    (p' : Parser) (hk : p.current.kind ≠ Token.DeclarationEvent)
    (hs : p.contract_part = (some n, p')) (he : p'.errors = p.errors) :
    n.start = p.current.start ∧
      ∃ pre t, p.tokens = pre ++ t :: p'.tokens ∧ t.kind = Token.Semicolon ∧
        n.stop = t.stop := by
  unfold Parser.contract_part at hs
  split at hs
  · rename_i hkind
    exact absurd hkind hk
  · split at hs
    · simp at hs
    · rename_i tn p1 hr
      dsimp only at hs
      injection hs with hs1 hs2
      injection hs1 with hs1
      subst hs2
      subst hs1
      have htn : tn.start = p.current.start ∧ p.Evolves p1 := by
        unfold Parser.type_name at hr
        split at hr
        · injection hr with hr1 hr2
          injection hr1 with hr1
          subst hr1
          subst hr2
          exact ⟨rfl, p.consume_evolves⟩
        · injection hr with hr1 hr2
          exact absurd hr1 (by simp)
      refine ⟨htn.1, ?_⟩
      have hev : p.Evolves ((p1.visibility).2.expect_str_node Token.Identifier).2 :=
        (htn.2.trans (p1.visibility_evolves)).trans
          (Parser.expect_str_node_evolves _ _)
      obtain ⟨pre, tk, h1, h2, h3⟩ :=
        Parser.expect_last hev rfl he (by intro hc; cases hc)
      exact ⟨pre, tk, h1, h2, by rw [← h3]; rfl⟩

/-- Span/consumption shape of a diagnostics-free successful
`indexed_parameter` run: the node starts at the entry (type) token's start
offset, and ends at the end offset of the last consumed token, which is the
name identifier; the name node is built from exactly that token. -/
theorem Parser.indexed_parameter_shape (p : Parser) (n : Node IndexedParameter)
    (p' : Parser) (hs : p.indexed_parameter = (some n, p'))
    (he : p'.errors = p.errors) :
    n.start = p.current.start ∧
      ∃ pre t, p.tokens = pre ++ t :: p'.tokens ∧ t.kind = Token.Identifier ∧
        n.stop = t.stop ∧ n.value.name = ⟨t.start, t.stop, t.text⟩ := by
  unfold Parser.indexed_parameter at hs
  split at hs
  · simp at hs
  · rename_i tn p1 hr
    dsimp only at hs
    injection hs with hs1 hs2
    injection hs1 with hs1
    subst hs2
    subst hs1
    have htn : tn.start = p.current.start ∧ p.Evolves p1 := by
      unfold Parser.type_name at hr
      split at hr
      · injection hr with hr1 hr2
        injection hr1 with hr1
        subst hr1
        subst hr2
        exact ⟨rfl, p.consume_evolves⟩
      · injection hr with hr1 hr2
        exact absurd hr1 (by simp)
    refine ⟨htn.1, ?_⟩
    have hev : p.Evolves (p1.allow Token.KeywordIndexed).2 :=
      htn.2.trans (p1.allow_evolves _)
    obtain ⟨pre, tk, h1, h2, h3⟩ :=
      Parser.expect_last hev rfl he (by intro hc; cases hc)
    refine ⟨pre, tk, h1, h2, ?_, ?_⟩
    · rw [← h3]
      rfl
    · show ((p1.allow Token.KeywordIndexed).2.expect_str_node Token.Identifier).1 =
        (⟨tk.start, tk.stop, tk.text⟩ : Node String)
      rw [Parser.expect_str_node, ← h3]

theorem Parser.current_eq_head (p : Parser) (t : Tok) (rest : List Tok)
    (h : p.tokens = t :: rest) : p.current = t := by
  simp [Parser.current, h]

/-- Repackaging of a shape fact as the round-trip form: the consumed segment
of the stream is nonempty and the node's span runs from the first consumed
token's start to the last consumed token's end. -/
theorem Parser.span_consumed_of_shape {p p' : Parser} {s e : Nat}
    (hstart : s = p.current.start)
    (hshape : ∃ pre t, p.tokens = pre ++ t :: p'.tokens ∧ e = t.stop) :
    ∃ consumed, consumed ≠ [] ∧ p.tokens = consumed ++ p'.tokens ∧
      (∃ tf, consumed.head? = some tf ∧ s = tf.start) ∧
      (∃ tl, consumed.getLast? = some tl ∧ e = tl.stop) := by
  obtain ⟨pre, t, hp, hstop⟩ := hshape
  refine ⟨pre ++ [t], by simp, ?_, ?_, ?_⟩
  · rw [hp, List.append_assoc]
    rfl
  · cases hpre : pre with
    | nil =>
      refine ⟨t, by simp, ?_⟩
      rw [hstart, p.current_eq_head t p'.tokens (by rw [hp, hpre]; rfl)]
    | cons c cs =>
      refine ⟨c, by simp, ?_⟩
      rw [hstart, p.current_eq_head c (cs ++ t :: p'.tokens)
        (by rw [hp, hpre]; rfl)]
  · exact ⟨t, List.getLast?_concat pre, hstop⟩

/-- The tokens of the repo test `contract Foo {}` (with its real byte
offsets). -/
def exFoo : List Tok := [
  ⟨Token.DeclarationContract, 14, 22, "contract"⟩,
  ⟨Token.Identifier, 23, 26, "Foo"⟩,
  ⟨Token.BraceOpen, 27, 28, "\x7b"⟩,
  ⟨Token.BraceClose, 28, 29, "\x7d"⟩]

/-- The tokens of the repo test `contract Doge is Amazing {}`. -/
def exDoge : List Tok := [
  ⟨Token.DeclarationContract, 42, 50, "contract"⟩,
  ⟨Token.Identifier, 51, 55, "Doge"⟩,
  ⟨Token.KeywordIs, 56, 58, "is"⟩,
  ⟨Token.Identifier, 59, 66, "Amazing"⟩,
  ⟨Token.BraceOpen, 67, 68, "\x7b"⟩,
  ⟨Token.BraceClose, 68, 69, "\x7d"⟩]

/-- The tokens of the repo test `contract This is Silly, Kinda {}`. -/
def exThis : List Tok := [
  ⟨Token.DeclarationContract, 82, 90, "contract"⟩,
  ⟨Token.Identifier, 91, 95, "This"⟩,
  ⟨Token.KeywordIs, 96, 98, "is"⟩,
  ⟨Token.Identifier, 99, 104, "Silly"⟩,
  ⟨Token.Comma, 104, 105, ","⟩,
  ⟨Token.Identifier, 106, 111, "Kinda"⟩,
  ⟨Token.BraceOpen, 112, 113, "\x7b"⟩,
  ⟨Token.BraceClose, 113, 114, "\x7d"⟩]

/-- The tokens of the repo test body `event Horizon(); event Alcoholics()
anonymous;` inside `contract Foo { ... }`. -/
def exEvents : List Tok := [
  ⟨Token.DeclarationContract, 14, 22, "contract"⟩,
  ⟨Token.Identifier, 23, 26, "Foo"⟩,
  ⟨Token.BraceOpen, 27, 28, "\x7b"⟩,
  ⟨Token.DeclarationEvent, 45, 50, "event"⟩,
  ⟨Token.Identifier, 51, 58, "Horizon"⟩,
  ⟨Token.ParenOpen, 58, 59, "("⟩,
  ⟨Token.ParenClose, 59, 60, ")"⟩,
  ⟨Token.Semicolon, 60, 61, ";"⟩,
  ⟨Token.DeclarationEvent, 78, 83, "event"⟩,
  ⟨Token.Identifier, 84, 94, "Alcoholics"⟩,
  ⟨Token.ParenOpen, 94, 95, "("⟩,
  ⟨Token.ParenClose, 95, 96, ")"⟩,
  ⟨Token.KeywordAnonymous, 97, 106, "anonymous"⟩,
  ⟨Token.Semicolon, 106, 107, ";"⟩,
  ⟨Token.BraceClose, 120, 121, "\x7d"⟩]

/-- The tokens of the repo test `event Horizon(int32 indexed foo, bool bar);`
inside `contract Foo { ... }`. -/
def exParams : List Tok := [
  ⟨Token.DeclarationContract, 14, 22, "contract"⟩,
  ⟨Token.Identifier, 23, 26, "Foo"⟩,
  ⟨Token.BraceOpen, 27, 28, "\x7b"⟩,
  ⟨Token.DeclarationEvent, 45, 50, "event"⟩,
  ⟨Token.Identifier, 51, 58, "Horizon"⟩,
  ⟨Token.ParenOpen, 58, 59, "("⟩,
  ⟨Token.TypeInt 4, 59, 64, "int32"⟩,
  ⟨Token.KeywordIndexed, 65, 72, "indexed"⟩,
  ⟨Token.Identifier, 73, 76, "foo"⟩,
  ⟨Token.Comma, 76, 77, ","⟩,
  ⟨Token.TypeBool, 78, 82, "bool"⟩,
  ⟨Token.Identifier, 83, 86, "bar"⟩,
  ⟨Token.ParenClose, 86, 87, ")"⟩,
  ⟨Token.Semicolon, 87, 88, ";"⟩,
  ⟨Token.BraceClose, 101, 102, "\x7d"⟩]

/-- The tokens of the repo test body `int32 foo; bytes10 public doge;` inside
`contract Foo { ... }`. -/
def exState : List Tok := [
  ⟨Token.DeclarationContract, 14, 22, "contract"⟩,
  ⟨Token.Identifier, 23, 26, "Foo"⟩,
  ⟨Token.BraceOpen, 27, 28, "\x7b"⟩,
  ⟨Token.TypeInt 4, 45, 50, "int32"⟩,
  ⟨Token.Identifier, 51, 54, "foo"⟩,
  ⟨Token.Semicolon, 54, 55, ";"⟩,
  ⟨Token.TypeByte 10, 72, 79, "bytes10"⟩,
  ⟨Token.KeywordPublic, 80, 86, "public"⟩,
  ⟨Token.Identifier, 87, 91, "doge"⟩,
  ⟨Token.Semicolon, 91, 92, ";"⟩,
  ⟨Token.BraceClose, 105, 106, "\x7d"⟩]

/-- C1: for every valid (diagnostics-free) contract declaration parsed from a
stream whose first token is the `contract` keyword, the produced node's span
starts at the `contract` keyword's start offset and ends at the end offset of
the consumed closing `}` — the offset immediately after the `}`. -/
theorem C1_contract_definition_span (p : Parser) (n : Node ContractDefinition)
    (p' : Parser) (hkw : p.current.kind = Token.DeclarationContract)
    (hs : p.contract_definition = (some n, p')) (he : p'.errors = p.errors) :
    n.start = p.current.start ∧
      ∃ pre t, p.tokens = pre ++ t :: p'.tokens ∧ t.kind = Token.BraceClose ∧
        n.stop = t.stop :=
  p.contract_definition_shape n p' hs he

/-- Witness for C1 on the repo's own `contract Foo {}` test vector. -/
theorem C1_contract_definition_span_witness :
    (⟨14, 29, ⟨⟨23, 26, "Foo"⟩, [], []⟩⟩ : Node ContractDefinition).start =
        (Parser.mk exFoo []).current.start ∧
      ∃ pre t, exFoo = pre ++ t :: ([] : List Tok) ∧
        t.kind = Token.BraceClose ∧
        (⟨14, 29, ⟨⟨23, 26, "Foo"⟩, [], []⟩⟩ : Node ContractDefinition).stop = t.stop := by
  have h := C1_contract_definition_span ⟨exFoo, []⟩
    ⟨14, 29, ⟨⟨23, 26, "Foo"⟩, [], []⟩⟩ ⟨[], []⟩
    (by simp [Parser.current, exFoo])
    (by simp [Parser.contract_definition, Parser.contract_inherits,
      Parser.body_loop, Parser.contract_part, Parser.start_then_consume,
      Parser.expect_str_node, Parser.expect, Parser.expect_end, Parser.allow,
      Parser.consume, Parser.current, Parser.type_name, tokenTypeName,
      Parser.error, exFoo])
    rfl
  exact h

/-- C2: round-trip/span invariant — for every node kind this parser produces
in a diagnostics-free run (ContractDefinition, EventDefinition as a contract
part, StateVariableDeclaration as a contract part, IndexedParameter, and the
identifier / type-name sub-nodes), the node's `[start, stop)` span runs from
the start of the first token the construct consumed to the end of the last
token it consumed, so re-slicing the source by the span reproduces exactly
the consumed text; spans come from consumed token boundaries, never from
re-scanning. -/
theorem C2_span_round_trip :
    (∀ (p : Parser) (n : Node ContractDefinition) (p' : Parser),
      p.contract_definition = (some n, p') → p'.errors = p.errors →
      ∃ consumed, consumed ≠ [] ∧ p.tokens = consumed ++ p'.tokens ∧
        (∃ tf, consumed.head? = some tf ∧ n.start = tf.start) ∧
        (∃ tl, consumed.getLast? = some tl ∧ n.stop = tl.stop)) ∧
    (∀ (p : Parser) (n : Node ContractPart) (p' : Parser),
      p.event_definition = (some n, p') → p'.errors = p.errors →
      ∃ consumed, consumed ≠ [] ∧ p.tokens = consumed ++ p'.tokens ∧
        (∃ tf, consumed.head? = some tf ∧ n.start = tf.start) ∧
        (∃ tl, consumed.getLast? = some tl ∧ n.stop = tl.stop)) ∧
    (∀ (p : Parser) (n : Node ContractPart) (p' : Parser),
      p.current.kind ≠ Token.DeclarationEvent →
      p.contract_part = (some n, p') → p'.errors = p.errors →
      ∃ consumed, consumed ≠ [] ∧ p.tokens = consumed ++ p'.tokens ∧
        (∃ tf, consumed.head? = some tf ∧ n.start = tf.start) ∧
        (∃ tl, consumed.getLast? = some tl ∧ n.stop = tl.stop)) ∧
    (∀ (p : Parser) (n : Node IndexedParameter) (p' : Parser),
      p.indexed_parameter = (some n, p') → p'.errors = p.errors →
      ∃ consumed, consumed ≠ [] ∧ p.tokens = consumed ++ p'.tokens ∧
        (∃ tf, consumed.head? = some tf ∧ n.start = tf.start) ∧
        (∃ tl, consumed.getLast? = some tl ∧ n.stop = tl.stop)) ∧
    (∀ p : Parser, p.current.kind = Token.Identifier →
      p.expect_str_node Token.Identifier =
        (⟨p.current.start, p.current.stop, p.current.text⟩, p.consume)) ∧
    (∀ (p : Parser) (ty : ElementaryTypeName),
      tokenTypeName p.current.kind = some ty →
      p.type_name = (some ⟨p.current.start, p.current.stop, ty⟩, p.consume)) := by
  refine ⟨?_, ?_, ?_, ?_, ?_, ?_⟩
  · intro p n p' hs he
    obtain ⟨h1, pre, t, h2, h3, h4⟩ := p.contract_definition_shape n p' hs he
    exact Parser.span_consumed_of_shape h1 ⟨pre, t, h2, h4⟩
  · intro p n p' hs he
    obtain ⟨h1, pre, t, h2, h3, h4⟩ := p.event_definition_shape n p' hs he
    exact Parser.span_consumed_of_shape h1 ⟨pre, t, h2, h4⟩
  · intro p n p' hk hs he
    obtain ⟨h1, pre, t, h2, h3, h4⟩ := p.contract_part_statevar_shape n p' hk hs he
    exact Parser.span_consumed_of_shape h1 ⟨pre, t, h2, h4⟩
  · intro p n p' hs he
    obtain ⟨h1, pre, t, h2, h3, h4, h5⟩ := p.indexed_parameter_shape n p' hs he
    exact Parser.span_consumed_of_shape h1 ⟨pre, t, h2, h4⟩
  · intro p h
    unfold Parser.expect_str_node
    rw [p.expect_of_kind Token.Identifier h]
  · intro p ty h
    unfold Parser.type_name
    rw [h]

/-- Witness for C2 on the repo's own `contract This is Silly, Kinda {}` test
vector. -/
theorem C2_span_round_trip_witness :
    ∃ consumed, consumed ≠ [] ∧ exThis = consumed ++ ([] : List Tok) ∧
      (∃ tf, consumed.head? = some tf ∧
        (⟨82, 114, ⟨⟨91, 95, "This"⟩,
          [⟨99, 104, "Silly"⟩, ⟨106, 111, "Kinda"⟩], []⟩⟩ :
          Node ContractDefinition).start = tf.start) ∧
      (∃ tl, consumed.getLast? = some tl ∧
        (⟨82, 114, ⟨⟨91, 95, "This"⟩,
          [⟨99, 104, "Silly"⟩, ⟨106, 111, "Kinda"⟩], []⟩⟩ :
          Node ContractDefinition).stop = tl.stop) := by
  have h := C2_span_round_trip.1 ⟨exThis, []⟩
    ⟨82, 114, ⟨⟨91, 95, "This"⟩, [⟨99, 104, "Silly"⟩, ⟨106, 111, "Kinda"⟩], []⟩⟩
    ⟨[], []⟩
    (by simp [Parser.contract_definition, Parser.contract_inherits,
      Parser.inherits_loop, Parser.body_loop, Parser.contract_part,
      Parser.start_then_consume, Parser.expect_str_node, Parser.expect,
      Parser.expect_end, Parser.allow, Parser.consume, Parser.current,
      Parser.type_name, tokenTypeName, Parser.error, exThis])
    rfl
  exact h

theorem Parser.Evolves.errors_le {p q : Parser} (h : p.Evolves q) :
    p.errors.length ≤ q.errors.length := by
  obtain ⟨-, e, he⟩ := h
  rw [he]
  simp

theorem Parser.consume_errors (p : Parser) : p.consume.errors = p.errors := rfl

theorem Parser.error_errors_length (p : Parser) :
    p.error.errors.length = p.errors.length + 1 := by
  unfold Parser.error
  simp

theorem Parser.visibility_errors (p : Parser) :
    (p.visibility).2.errors = p.errors := by
  unfold Parser.visibility
  split <;> rfl

theorem Parser.type_name_errors (p : Parser) :
    (p.type_name).2.errors = p.errors := by
  unfold Parser.type_name
  split <;> rfl

theorem Parser.event_definition_isSome (p : Parser) :
    ∃ n p', p.event_definition = (some n, p') := by
  unfold Parser.event_definition
  exact ⟨_, _, rfl⟩

theorem Parser.contract_definition_isSome (p : Parser) :
    ∃ n p', p.contract_definition = (some n, p') := by
  unfold Parser.contract_definition
  exact ⟨_, _, rfl⟩

/-- Once the type-name probe has succeeded in the state-variable branch, a
missing name identifier is reported through the error sink. -/
theorem Parser.statevar_missing_name_reported (p : Parser)
    (tn : Node ElementaryTypeName) (p1 : Parser)
    (hk : p.current.kind ≠ Token.DeclarationEvent)
    (hr : p.type_name = (some tn, p1))
    (hid : (p1.visibility).2.current.kind ≠ Token.Identifier) :
    p.errors.length < (p.contract_part).2.errors.length := by
  unfold Parser.contract_part
  split
  · rename_i hkind
    exact absurd hkind hk
  · split
    · rename_i p1' hr'
      rw [hr] at hr'
      simp at hr'
    · rename_i tn' p1' hr'
      rw [hr] at hr'
      injection hr' with ha hb
      dsimp only
      rw [← hb]
      have h1 : (p1.visibility).2.errors = p.errors := by
        rw [Parser.visibility_errors]
        have : p1 = (p.type_name).2 := by rw [hr]
        rw [this, Parser.type_name_errors]
      have h2 : (((p1.visibility).2.expect_str_node Token.Identifier).2).errors.length
          = p.errors.length + 1 := by
        unfold Parser.expect_str_node
        dsimp only
        rw [Parser.expect_of_ne _ _ hid, Parser.error_errors_length, h1]
      have h3 := (Parser.expect_end_evolves
        (((p1.visibility).2.expect_str_node Token.Identifier).2)
        Token.Semicolon).errors_le
      omega

/-- C3: `contract_part` returns no item exactly when the next token is not
the `event` keyword and the type-name probe fails; in that case the parser
state is untouched (no token consumed, no diagnostic recorded) — the sole
non-committing lookahead.  Once a type name is obtained, a missing required
identifier is reported through the error sink, never a silent stop. -/
theorem C3_contract_part_noncommitting :
    (∀ p : Parser, (p.contract_part).1 = none ↔
      (p.current.kind ≠ Token.DeclarationEvent ∧ (p.type_name).1 = none)) ∧
    (∀ p : Parser, (p.contract_part).1 = none → (p.contract_part).2 = p) ∧
    (∀ (p : Parser) (tn : Node ElementaryTypeName) (p1 : Parser),
      p.current.kind ≠ Token.DeclarationEvent →
      p.type_name = (some tn, p1) →
      (p1.visibility).2.current.kind ≠ Token.Identifier →
      p.errors.length < (p.contract_part).2.errors.length) := by
  have hnone : ∀ p : Parser, (p.contract_part).1 = none →
      p.current.kind ≠ Token.DeclarationEvent ∧ (p.type_name).1 = none ∧
        (p.contract_part).2 = p := by
    intro p hn
    unfold Parser.contract_part at hn ⊢
    split at hn
    · rename_i hkind
      obtain ⟨n, p', hsome⟩ := p.event_definition_isSome
      rw [hsome] at hn
      simp at hn
    · rename_i hkind
      split at hn
      · rename_i p1 hr
        refine ⟨hkind, by rw [hr], ?_⟩
        show p1 = p
        unfold Parser.type_name at hr
        split at hr
        · simp at hr
        · injection hr with hr1 hr2
          exact hr2.symm
      · rename_i tn p1 hr
        simp at hn
  refine ⟨?_, ?_, ?_⟩
  · intro p
    constructor
    · intro hn
      exact ⟨(hnone p hn).1, (hnone p hn).2.1⟩
    · intro ⟨hk, ht⟩
      unfold Parser.contract_part
      split
      · rename_i hkind
        exact absurd hkind hk
      · split
        · simp
        · rename_i tn p1 hr
          rw [hr] at ht
          simp at ht
  · intro p hn
    exact (hnone p hn).2.2
  · intro p tn p1 hk hr hid
    exact p.statevar_missing_name_reported tn p1 hk hr hid

/-- Witness for C3: at a closing `}` the body loop gets the no-item signal
with the state untouched; on `bool ;` (type name but no identifier) a
diagnostic is recorded. -/
theorem C3_contract_part_noncommitting_witness :
    ((Parser.mk [⟨Token.BraceClose, 28, 29, "\x7d"⟩] []).contract_part).1 = none ∧
    (Parser.mk [⟨Token.TypeBool, 0, 4, "bool"⟩, ⟨Token.Semicolon, 4, 5, ";"⟩]
      []).errors.length <
      ((Parser.mk [⟨Token.TypeBool, 0, 4, "bool"⟩, ⟨Token.Semicolon, 4, 5, ";"⟩]
        []).contract_part).2.errors.length := by
  constructor
  · apply (C3_contract_part_noncommitting.1 _).mpr
    constructor
    · simp [Parser.current]
    · simp [Parser.type_name, Parser.current, tokenTypeName]
  · apply C3_contract_part_noncommitting.2.2
      (Parser.mk [⟨Token.TypeBool, 0, 4, "bool"⟩, ⟨Token.Semicolon, 4, 5, ";"⟩] [])
      ⟨0, 4, ElementaryTypeName.Bool⟩
      (Parser.mk [⟨Token.Semicolon, 4, 5, ";"⟩] [])
    · simp [Parser.current]
    · simp [Parser.type_name, Parser.current, tokenTypeName, Parser.consume]
    · simp [Parser.visibility, Parser.current]

theorem Parser.type_name_none (p : Parser) (h : (p.type_name).1 = none) :
    p.type_name = (none, p) := by
  unfold Parser.type_name at h ⊢
  split at h
  · simp at h
  · rfl

theorem Parser.indexed_parameter_none (p : Parser)
    (h : (p.indexed_parameter).1 = none) : p.indexed_parameter = (none, p) := by
  unfold Parser.indexed_parameter at h ⊢
  cases ht : p.type_name with
  | mk o p1 =>
    cases o with
    | none =>
      have h0 : (p.type_name).1 = none := by rw [ht]
      have h3 := p.type_name_none h0
      rw [ht] at h3
      injection h3 with h4 h5
      rw [h5]
    | some tn =>
      rw [ht] at h
      simp at h

/-- The tokens of `contract C { }` with the name identifier missing (the
token after `contract` is `{`). -/
def exMissingName : List Tok := [
  ⟨Token.DeclarationContract, 0, 8, "contract"⟩,
  ⟨Token.BraceOpen, 9, 10, "\x7b"⟩,
  ⟨Token.BraceClose, 10, 11, "\x7d"⟩]

/-- C4 counterexample: on `contract { }` (name identifier absent) a
diagnostic is recorded, but `contract_definition` does NOT return the no-node
result — the caller still receives a node, contradicting the claim's
"aborted ... no node" part. -/
theorem C4_missing_name_counterexample :
    ((Parser.mk exMissingName []).contract_definition).1 ≠ none ∧
      ((Parser.mk exMissingName []).contract_definition).2.errors ≠ [] := by
  constructor <;>
    simp [Parser.contract_definition, Parser.contract_inherits,
      Parser.body_loop, Parser.contract_part, Parser.start_then_consume,
      Parser.expect_str_node, Parser.expect, Parser.expect_end, Parser.allow,
      Parser.consume, Parser.current, Parser.type_name, tokenTypeName,
      Parser.error, exMissingName]

/-- C4 (amended): if the identifier name after the `contract` keyword is
absent, `contract_definition` records a diagnostic via the error sink, but it
does not abort — it still returns a node (error-tolerant parsing), so the
caller receives a node together with the recorded diagnostic. -/
theorem C4_missing_name_reported_not_aborted (p : Parser)
    (hid : (p.consume).current.kind ≠ Token.Identifier) :
    ∃ n p', p.contract_definition = (some n, p') ∧
      p.errors.length < p'.errors.length := by
  obtain ⟨n, p', hs⟩ := p.contract_definition_isSome
  refine ⟨n, p', hs, ?_⟩
  unfold Parser.contract_definition at hs
  dsimp only at hs
  injection hs with hs1 hs2
  subst hs2
  have h2 : ((p.start_then_consume).2.expect_str_node Token.Identifier).2.errors.length
      = p.errors.length + 1 := by
    dsimp only [Parser.expect_str_node, Parser.start_then_consume]
    rw [Parser.expect_of_ne _ _ hid, Parser.error_errors_length,
      Parser.consume_errors]
  have h3 := ((((Parser.contract_inherits_evolves
    ((p.start_then_consume).2.expect_str_node Token.Identifier).2).trans
    (Parser.expect_evolves _ Token.BraceOpen)).trans
    (Parser.body_loop_evolves _ [])).trans
    (Parser.expect_end_evolves _ Token.BraceClose)).errors_le
  omega

/-- Witness for the amended C4 on `contract { }`. -/
theorem C4_missing_name_reported_not_aborted_witness :
    ∃ n p', (Parser.mk exMissingName []).contract_definition = (some n, p') ∧
      (Parser.mk exMissingName []).errors.length < p'.errors.length :=
  C4_missing_name_reported_not_aborted (Parser.mk exMissingName [])
    (by simp [Parser.consume, Parser.current, exMissingName])

/-- The tokens of `event E(bool a,);` — an event parameter list with a
trailing comma. -/
def exDangling : List Tok := [
  ⟨Token.DeclarationEvent, 0, 5, "event"⟩,
  ⟨Token.Identifier, 6, 7, "E"⟩,
  ⟨Token.ParenOpen, 7, 8, "("⟩,
  ⟨Token.TypeBool, 8, 12, "bool"⟩,
  ⟨Token.Identifier, 13, 14, "a"⟩,
  ⟨Token.Comma, 14, 15, ","⟩,
  ⟨Token.ParenClose, 15, 16, ")"⟩,
  ⟨Token.Semicolon, 16, 17, ";"⟩]

/-- C5 counterexample: on `event E(bool a,);` the dangling comma is reported
(a diagnostic at offset 15), yet `event_definition` still produces an
EventDefinition node whose params are the successfully parsed parameters —
contradicting the claim's "no partial or empty substitute list is produced". -/
theorem C5_dangling_comma_counterexample :
    (Parser.mk exDangling []).event_definition =
      (some ⟨0, 17, ContractPart.EventDefinition ⟨false, ⟨6, 7, "E"⟩,
        [⟨8, 14, ⟨false, ⟨8, 12, ElementaryTypeName.Bool⟩, ⟨13, 14, "a"⟩⟩⟩]⟩⟩,
       ⟨[], [15]⟩) := by
  simp [Parser.event_definition, Parser.event_params, Parser.event_params_loop,
    Parser.indexed_parameter, Parser.start_then_consume, Parser.expect_str_node,
    Parser.expect, Parser.expect_end, Parser.allow, Parser.consume,
    Parser.current, Parser.type_name, tokenTypeName, Parser.error, exDangling]

/-- C5 (amended): a comma in an event parameter list that is not followed by
a valid indexed parameter is always reported through the error sink — never
silently treated as list termination — but the construct is not aborted:
`event_definition` still returns a node with the successfully parsed
parameters. -/
theorem C5_dangling_comma_reported :
    (∀ (p : Parser) (b : List (Node IndexedParameter)),
      p.current.kind = Token.Comma →
      ((p.consume).indexed_parameter).1 = none →
      p.errors.length < (p.event_params_loop b).2.errors.length) ∧
    (∀ p : Parser, ∃ n p', p.event_definition = (some n, p')) := by
  constructor
  · intro p b hc hn
    have hI := (p.consume).indexed_parameter_none hn
    rw [p.event_params_loop_step_none b (p.consume) hc hI]
    have h1 := (Parser.event_params_loop_evolves ((p.consume).error) b).errors_le
    rw [Parser.error_errors_length, Parser.consume_errors] at h1
    omega
  · exact Parser.event_definition_isSome

/-- Witness for the amended C5 on `event E(bool a,);`: at the dangling comma
the loop records a diagnostic, and the event node is still produced. -/
theorem C5_dangling_comma_reported_witness :
    (Parser.mk [⟨Token.Comma, 14, 15, ","⟩, ⟨Token.ParenClose, 15, 16, ")"⟩]
      []).errors.length <
      ((Parser.mk [⟨Token.Comma, 14, 15, ","⟩, ⟨Token.ParenClose, 15, 16, ")"⟩]
        []).event_params_loop []).2.errors.length ∧
    ∃ n p', (Parser.mk exDangling []).event_definition = (some n, p') := by
  constructor
  · apply C5_dangling_comma_reported.1
    · simp [Parser.current]
    · simp [Parser.indexed_parameter, Parser.type_name, Parser.consume,
        Parser.current, tokenTypeName]
  · exact C5_dangling_comma_reported.2 (Parser.mk exDangling [])

theorem Parser.consume_of_cons (p : Parser) (t : Tok) (rest : List Tok)
    (h : p.tokens = t :: rest) : p.consume = ⟨rest, p.errors⟩ := by
  cases p with
  | mk toks errs =>
    simp only [] at h
    subst h
    rfl

theorem Parser.expect_node_of_kind (p : Parser) (t : Token)
    (h : p.current.kind = t) :
    p.expect_str_node t =
      (⟨p.current.start, p.current.stop, p.current.text⟩, p.consume) := by
  unfold Parser.expect_str_node
  rw [p.expect_of_kind t h]

theorem Parser.allow_pos (p : Parser) (t : Token) (h : p.current.kind = t) :
    p.allow t = (true, p.consume) := by
  unfold Parser.allow
  rw [if_pos h]

theorem Parser.allow_neg (p : Parser) (t : Token) (h : p.current.kind ≠ t) :
    p.allow t = (false, p) := by
  unfold Parser.allow
  rw [if_neg h]

/-- Full run of the inheritance comma loop over a well-formed
`(, identifier)*` segment: it appends exactly the identifier nodes, in source
order, consuming the segment and recording nothing. -/
theorem Parser.inherits_loop_run (pairs : List (Tok × Tok)) :
    ∀ (p : Parser) (b : List (Node String)) (rest : List Tok),
    p.tokens = (pairs.flatMap fun pr => [pr.1, pr.2]) ++ rest →
    (∀ pr ∈ pairs, pr.1.kind = Token.Comma ∧ pr.2.kind = Token.Identifier) →
    headKind rest ≠ Token.Comma →
    p.inherits_loop b =
      (b ++ pairs.map (fun pr => ⟨pr.2.start, pr.2.stop, pr.2.text⟩),
       ⟨rest, p.errors⟩) := by
  induction pairs with
  | nil =>
    intro p b rest hp hk hr
    simp only [List.flatMap_nil, List.nil_append] at hp
    rw [Parser.inherits_loop_stop p b]
    · cases p with
      | mk toks errs =>
        simp only [] at hp
        subst hp
        simp
    · rw [p.current_kind_eq_headKind, hp]
      exact hr
  | cons pr tl ih =>
    intro p b rest hp hk hr
    simp only [List.flatMap_cons, List.cons_append, List.append_assoc] at hp
    have hp' : p.tokens = pr.1 :: (pr.2 :: ((tl.flatMap fun x => [x.1, x.2]) ++ rest)) := by
      rw [hp]
      rfl
    have hk1 := (hk pr (by simp)).1
    have hk2 := (hk pr (by simp)).2
    have hcur : p.current.kind = Token.Comma := by
      rw [p.current_of_cons _ _ hp']
      exact hk1
    rw [p.inherits_loop_step b hcur]
    have hc1 : p.consume =
        ⟨pr.2 :: ((tl.flatMap fun x => [x.1, x.2]) ++ rest), p.errors⟩ :=
      p.consume_of_cons _ _ hp'
    rw [hc1]
    have hcur2 : (⟨pr.2 :: ((tl.flatMap fun x => [x.1, x.2]) ++ rest), p.errors⟩ :
        Parser).current = pr.2 := Parser.current_of_cons _ _ _ rfl
    rw [Parser.expect_node_of_kind _ Token.Identifier (by rw [hcur2]; exact hk2)]
    rw [hcur2]
    rw [Parser.consume_of_cons _ pr.2 ((tl.flatMap fun x => [x.1, x.2]) ++ rest) rfl]
    rw [ih _ _ rest rfl (fun q hq => hk q (by simp [hq])) hr]
    simp

/-- Diagnostics are monotone across the tail of `contract_definition` that
follows the inheritance clause's first identifier. -/
theorem Parser.inherits_tail_errors_le (q : Parser) (B : List (Node String)) :
    q.errors.length ≤
      ((((q.inherits_loop B).2.expect Token.BraceOpen).body_loop
        []).2.expect_end Token.BraceClose).2.errors.length :=
  Parser.Evolves.errors_le
    ((((Parser.inherits_loop_evolves q B).trans
      (Parser.expect_evolves _ _)).trans
      (Parser.body_loop_evolves _ _)).trans (Parser.expect_end_evolves _ _))

theorem Parser.contract_definition_inherits (p : Parser)
    (n : Node ContractDefinition) (p' : Parser)
    (hs : p.contract_definition = (some n, p')) :
    n.value.inherits =
      (((p.start_then_consume).2.expect_str_node
        Token.Identifier).2.contract_inherits).1 := by
  unfold Parser.contract_definition at hs
  dsimp only at hs
  injection hs with hs1 hs2
  injection hs1 with hs1
  subst hs1
  rfl

/-- C6: the inherits list of a parsed ContractDefinition is the canonical
empty list when no `is` keyword follows the contract name; when `is` is
present it is non-empty and contains exactly the comma-separated identifiers
in source order; and a trailing comma with no following identifier is
reported through the error sink. -/
theorem C6_inherits_list :
    (∀ (p : Parser) (n : Node ContractDefinition) (p' : Parser)
       (ct nt : Tok) (rest2 : List Tok),
      p.tokens = ct :: nt :: rest2 → nt.kind = Token.Identifier →
      headKind rest2 ≠ Token.KeywordIs →
      p.contract_definition = (some n, p') → n.value.inherits = []) ∧
    (∀ (p : Parser) (n : Node ContractDefinition) (p' : Parser)
       (ct nt ist idt : Tok) (pairs : List (Tok × Tok)) (rest3 : List Tok),
      p.tokens = ct :: nt :: ist :: idt ::
        ((pairs.flatMap fun pr => [pr.1, pr.2]) ++ rest3) →
      nt.kind = Token.Identifier → ist.kind = Token.KeywordIs →
      idt.kind = Token.Identifier →
      (∀ pr ∈ pairs, pr.1.kind = Token.Comma ∧ pr.2.kind = Token.Identifier) →
      headKind rest3 ≠ Token.Comma →
      p.contract_definition = (some n, p') →
      n.value.inherits = ⟨idt.start, idt.stop, idt.text⟩ ::
        pairs.map (fun pr => ⟨pr.2.start, pr.2.stop, pr.2.text⟩) ∧
      n.value.inherits ≠ []) ∧
    (∀ (p : Parser) (ct nt ist idt ctok : Tok) (rest3 : List Tok),
      p.tokens = ct :: nt :: ist :: idt :: ctok :: rest3 →
      nt.kind = Token.Identifier → ist.kind = Token.KeywordIs →
      idt.kind = Token.Identifier → ctok.kind = Token.Comma →
      headKind rest3 ≠ Token.Identifier →
      p.errors.length < (p.contract_definition).2.errors.length) := by
  refine ⟨?_, ?_, ?_⟩
  · intro p n p' ct nt rest2 hp hnt his hs
    rw [p.contract_definition_inherits n p' hs]
    dsimp only [Parser.start_then_consume]
    rw [p.consume_of_cons ct (nt :: rest2) hp]
    rw [Parser.expect_node_of_kind _ _
      (by rw [Parser.current_of_cons _ nt rest2 rfl]; exact hnt)]
    dsimp only
    rw [Parser.consume_of_cons _ nt rest2 rfl]
    unfold Parser.contract_inherits
    rw [Parser.allow_neg _ _ (by rw [Parser.current_kind_eq_headKind]; exact his)]
    simp
  · intro p n p' ct nt ist idt pairs rest3 hp hnt hist hidt hk hrest hs
    constructor
    · rw [p.contract_definition_inherits n p' hs]
      dsimp only [Parser.start_then_consume]
      rw [p.consume_of_cons ct _ hp]
      rw [Parser.expect_node_of_kind _ _
        (by rw [Parser.current_of_cons _ nt _ rfl]; exact hnt)]
      dsimp only
      rw [Parser.consume_of_cons _ nt _ rfl]
      unfold Parser.contract_inherits
      rw [Parser.allow_pos _ _
        (by rw [Parser.current_of_cons _ ist _ rfl]; exact hist)]
      dsimp only
      rw [Parser.consume_of_cons _ ist _ rfl]
      rw [Parser.expect_node_of_kind _ _
        (by rw [Parser.current_of_cons _ idt _ rfl]; exact hidt)]
      dsimp only
      rw [Parser.consume_of_cons _ idt _ rfl]
      rw [Parser.current_of_cons _ idt _ rfl]
      rw [Parser.inherits_loop_run pairs _ _ rest3 rfl hk hrest]
      simp
    · rw [p.contract_definition_inherits n p' hs]
      dsimp only [Parser.start_then_consume]
      rw [p.consume_of_cons ct _ hp]
      rw [Parser.expect_node_of_kind _ _
        (by rw [Parser.current_of_cons _ nt _ rfl]; exact hnt)]
      dsimp only
      rw [Parser.consume_of_cons _ nt _ rfl]
      unfold Parser.contract_inherits
      rw [Parser.allow_pos _ _
        (by rw [Parser.current_of_cons _ ist _ rfl]; exact hist)]
      dsimp only
      rw [Parser.consume_of_cons _ ist _ rfl]
      rw [Parser.expect_node_of_kind _ _
        (by rw [Parser.current_of_cons _ idt _ rfl]; exact hidt)]
      dsimp only
      rw [Parser.consume_of_cons _ idt _ rfl]
      rw [Parser.current_of_cons _ idt _ rfl]
      rw [Parser.inherits_loop_run pairs _ _ rest3 rfl hk hrest]
      simp
  · intro p ct nt ist idt ctok rest3 hp hnt hist hidt hcm hrest
    unfold Parser.contract_definition
    dsimp only [Parser.start_then_consume]
    rw [p.consume_of_cons ct _ hp]
    rw [Parser.expect_node_of_kind _ _
      (by rw [Parser.current_of_cons _ nt _ rfl]; exact hnt)]
    dsimp only
    rw [Parser.consume_of_cons _ nt _ rfl]
    unfold Parser.contract_inherits
    rw [Parser.allow_pos _ _
      (by rw [Parser.current_of_cons _ ist _ rfl]; exact hist)]
    dsimp only
    rw [Parser.consume_of_cons _ ist _ rfl]
    rw [Parser.expect_node_of_kind _ _
      (by rw [Parser.current_of_cons _ idt _ rfl]; exact hidt)]
    dsimp only
    rw [Parser.consume_of_cons _ idt _ rfl]
    rw [Parser.inherits_loop_step _ _
      (by rw [Parser.current_of_cons _ ctok rest3 rfl]; exact hcm)]
    rw [Parser.consume_of_cons _ ctok rest3 rfl]
    have hmis : ((⟨rest3, p.errors⟩ : Parser).expect_str_node Token.Identifier).2 =
        (⟨rest3, p.errors⟩ : Parser).error := by
      unfold Parser.expect_str_node
      dsimp only
      apply Parser.expect_of_ne
      rw [Parser.current_kind_eq_headKind]
      exact hrest
    rw [hmis]
    refine Nat.lt_of_lt_of_le ?_ (Parser.inherits_tail_errors_le _ _)
    rw [Parser.error_errors_length]
    dsimp only
    omega

/-- Witness for C6 on the repo's own `contract This is Silly, Kinda {}` test
vector: the inherits list is exactly `[Silly, Kinda]`, in that order. -/
theorem C6_inherits_list_witness :
    (⟨82, 114, ⟨⟨91, 95, "This"⟩, [⟨99, 104, "Silly"⟩, ⟨106, 111, "Kinda"⟩], []⟩⟩ :
      Node ContractDefinition).value.inherits =
      (⟨99, 104, "Silly"⟩ : Node String) ::
        [(⟨106, 111, "Kinda"⟩ : Node String)] ∧
    (⟨82, 114, ⟨⟨91, 95, "This"⟩, [⟨99, 104, "Silly"⟩, ⟨106, 111, "Kinda"⟩], []⟩⟩ :
      Node ContractDefinition).value.inherits ≠ [] := by
  have h := C6_inherits_list.2.1 ⟨exThis, []⟩
    ⟨82, 114, ⟨⟨91, 95, "This"⟩, [⟨99, 104, "Silly"⟩, ⟨106, 111, "Kinda"⟩], []⟩⟩
    ⟨[], []⟩
    ⟨Token.DeclarationContract, 82, 90, "contract"⟩
    ⟨Token.Identifier, 91, 95, "This"⟩
    ⟨Token.KeywordIs, 96, 98, "is"⟩
    ⟨Token.Identifier, 99, 104, "Silly"⟩
    [(⟨Token.Comma, 104, 105, ","⟩, ⟨Token.Identifier, 106, 111, "Kinda"⟩)]
    [⟨Token.BraceOpen, 112, 113, "\x7b"⟩, ⟨Token.BraceClose, 113, 114, "\x7d"⟩]
    (by simp [exThis])
    rfl rfl rfl
    (by simp)
    (by simp [headKind])
    (by simp [Parser.contract_definition, Parser.contract_inherits,
      Parser.inherits_loop, Parser.body_loop, Parser.contract_part,
      Parser.start_then_consume, Parser.expect_str_node, Parser.expect,
      Parser.expect_end, Parser.allow, Parser.consume, Parser.current,
      Parser.type_name, tokenTypeName, Parser.error, exThis])
  exact h

theorem Parser.type_name_of_some (p : Parser) (ty : ElementaryTypeName)
    (h : tokenTypeName p.current.kind = some ty) :
    p.type_name = (some ⟨p.current.start, p.current.stop, ty⟩, p.consume) := by
  unfold Parser.type_name
  rw [h]

theorem Parser.type_name_of_none (p : Parser)
    (h : tokenTypeName p.current.kind = none) : p.type_name = (none, p) := by
  unfold Parser.type_name
  rw [h]

/-- The params loop only appends: its result extends the builder it was
seeded with (order and already-pushed elements preserved). -/
theorem Parser.event_params_loop_extends (p : Parser)
    (b : List (Node IndexedParameter)) :
    ∃ tail, (p.event_params_loop b).1 = b ++ tail := by
  induction p, b using Parser.event_params_loop.induct with
  | case1 p b h param p2 hr ih =>
    rw [p.event_params_loop_step_some b param p2 h hr]
    obtain ⟨tail, htail⟩ := ih
    exact ⟨[param] ++ tail, by rw [htail, List.append_assoc]⟩
  | case2 p b h p2 hr ih =>
    rw [p.event_params_loop_step_none b p2 h hr]
    exact ih
  | case3 p b h =>
    rw [p.event_params_loop_stop b h]
    exact ⟨[], by simp⟩

theorem Parser.event_definition_parts (p : Parser) (n : Node ContractPart)
    (p' : Parser) (hs : p.event_definition = (some n, p')) :
    ∃ e : EventDefinition, n.value = ContractPart.EventDefinition e ∧
      e.params = ((((p.start_then_consume).2.expect_str_node
        Token.Identifier).2.expect Token.ParenOpen).event_params).1 ∧
      e.anonymous = (((((((p.start_then_consume).2.expect_str_node
        Token.Identifier).2.expect Token.ParenOpen).event_params).2.expect
        Token.ParenClose)).allow Token.KeywordAnonymous).1 ∧
      p' = ((((((((p.start_then_consume).2.expect_str_node
        Token.Identifier).2.expect Token.ParenOpen).event_params).2.expect
        Token.ParenClose)).allow Token.KeywordAnonymous).2.expect_end
        Token.Semicolon).2 := by
  unfold Parser.event_definition at hs
  dsimp only at hs
  injection hs with hs1 hs2
  injection hs1 with hs1
  subst hs1
  subst hs2
  exact ⟨_, rfl, rfl, rfl, rfl⟩

/-- The tokens of one event parameter: a type token, an optional `indexed`
keyword token, and a name identifier token. -/
structure ParamToks where
  tt : Tok
  io : Option Tok
  nt : Tok
deriving DecidableEq, Repr

/-- The token rendering of one parameter. -/
def ParamToks.toks (q : ParamToks) : List Tok :=
  match q.io with
  | some i => [q.tt, i, q.nt]
  | none => [q.tt, q.nt]

/-- Well-formedness of one parameter's tokens: the type token is accepted by
the type-name probe, the optional middle token is the `indexed` keyword, and
the final token is an identifier. -/
def ParamToks.wf (q : ParamToks) : Prop :=
  (tokenTypeName q.tt.kind).isSome ∧
  (∀ i ∈ q.io, i.kind = Token.KeywordIndexed) ∧
  q.nt.kind = Token.Identifier

/-- The IndexedParameter node that parsing one well-formed parameter yields. -/
def ParamToks.node (q : ParamToks) : Node IndexedParameter :=
  ⟨q.tt.start, q.nt.stop,
   ⟨q.io.isSome,
    ⟨q.tt.start, q.tt.stop, (tokenTypeName q.tt.kind).getD ElementaryTypeName.Bool⟩,
    ⟨q.nt.start, q.nt.stop, q.nt.text⟩⟩⟩

/-- Parsing one well-formed parameter consumes exactly its tokens, records
nothing, and yields its node. -/
theorem Parser.indexed_parameter_run (q : ParamToks) (p : Parser)
    (rest : List Tok) (hp : p.tokens = q.toks ++ rest) (hwf : q.wf) :
    p.indexed_parameter = (some q.node, ⟨rest, p.errors⟩) := by
  obtain ⟨hty0, hio, hnt⟩ := hwf
  obtain ⟨ty, hty⟩ := Option.isSome_iff_exists.mp hty0
  cases hqio : q.io with
  | none =>
    have htoks : q.toks = [q.tt, q.nt] := by
      unfold ParamToks.toks
      rw [hqio]
    have hp' : p.tokens = q.tt :: q.nt :: rest := by
      rw [hp, htoks]
      rfl
    have htn := p.type_name_of_some ty
      (by rw [p.current_of_cons _ _ hp']; exact hty)
    unfold Parser.indexed_parameter
    rw [htn]
    dsimp only
    rw [p.consume_of_cons _ _ hp']
    rw [Parser.allow_neg _ _
      (by rw [Parser.current_of_cons _ q.nt rest rfl, hnt]; intro hc; cases hc)]
    dsimp only
    rw [Parser.expect_node_of_kind _ _
      (by rw [Parser.current_of_cons _ q.nt rest rfl]; exact hnt)]
    dsimp only
    rw [Parser.consume_of_cons _ q.nt rest rfl]
    rw [Parser.current_of_cons (⟨q.nt :: rest, p.errors⟩ : Parser) q.nt rest rfl]
    unfold ParamToks.node
    rw [hqio, hty]
    simp [p.current_of_cons _ _ hp']
  | some i =>
    have hi : i.kind = Token.KeywordIndexed := hio i (by rw [hqio]; rfl)
    have htoks : q.toks = [q.tt, i, q.nt] := by
      unfold ParamToks.toks
      rw [hqio]
    have hp' : p.tokens = q.tt :: i :: q.nt :: rest := by
      rw [hp, htoks]
      rfl
    have htn := p.type_name_of_some ty
      (by rw [p.current_of_cons _ _ hp']; exact hty)
    unfold Parser.indexed_parameter
    rw [htn]
    dsimp only
    rw [p.consume_of_cons _ _ hp']
    rw [Parser.allow_pos _ _
      (by rw [Parser.current_of_cons _ i (q.nt :: rest) rfl]; exact hi)]
    dsimp only
    rw [Parser.consume_of_cons _ i (q.nt :: rest) rfl]
    rw [Parser.expect_node_of_kind _ _
      (by rw [Parser.current_of_cons _ q.nt rest rfl]; exact hnt)]
    dsimp only
    rw [Parser.consume_of_cons _ q.nt rest rfl]
    rw [Parser.current_of_cons (⟨q.nt :: rest, p.errors⟩ : Parser) q.nt rest rfl]
    unfold ParamToks.node
    rw [hqio, hty]
    simp [p.current_of_cons _ _ hp']

/-- Full run of the event-parameter comma loop over a well-formed
`(, parameter)*` segment: it appends exactly the parameter nodes, in source
order, consuming the segment and recording nothing. -/
theorem Parser.event_params_loop_run (pairs : List (Tok × ParamToks)) :
    ∀ (p : Parser) (b : List (Node IndexedParameter)) (rest : List Tok),
    p.tokens = (pairs.flatMap fun pr => pr.1 :: pr.2.toks) ++ rest →
    (∀ pr ∈ pairs, pr.1.kind = Token.Comma ∧ pr.2.wf) →
    headKind rest ≠ Token.Comma →
    p.event_params_loop b =
      (b ++ pairs.map (fun pr => pr.2.node), ⟨rest, p.errors⟩) := by
  induction pairs with
  | nil =>
    intro p b rest hp hk hr
    simp only [List.flatMap_nil, List.nil_append] at hp
    rw [Parser.event_params_loop_stop p b]
    · cases p with
      | mk toks errs =>
        simp only [] at hp
        subst hp
        simp
    · rw [p.current_kind_eq_headKind, hp]
      exact hr
  | cons pr tl ih =>
    intro p b rest hp hk hr
    have hp' : p.tokens = pr.1 :: (pr.2.toks ++
        ((tl.flatMap fun x => x.1 :: x.2.toks) ++ rest)) := by
      rw [hp]
      simp [List.flatMap_cons, List.append_assoc]
    have hk1 := (hk pr (by simp)).1
    have hk2 := (hk pr (by simp)).2
    have hcur : p.current.kind = Token.Comma := by
      rw [p.current_of_cons _ _ hp']
      exact hk1
    have hcons : p.consume = ⟨pr.2.toks ++
        ((tl.flatMap fun x => x.1 :: x.2.toks) ++ rest), p.errors⟩ :=
      p.consume_of_cons _ _ hp'
    have hip := Parser.indexed_parameter_run pr.2
      (⟨pr.2.toks ++ ((tl.flatMap fun x => x.1 :: x.2.toks) ++ rest),
        p.errors⟩ : Parser)
      ((tl.flatMap fun x => x.1 :: x.2.toks) ++ rest) rfl hk2
    rw [p.event_params_loop_step_some b pr.2.node _ hcur (by rw [hcons]; exact hip)]
    rw [ih _ _ rest rfl (fun x hx => hk x (by simp [hx])) hr]
    simp

/-- The token rendering of an optional event-parameter segment: nothing, or a
first parameter followed by comma-separated parameters. -/
def segToks : Option (ParamToks × List (Tok × ParamToks)) → List Tok
  | none => []
  | some (f, pairs) => f.toks ++ pairs.flatMap fun pr => pr.1 :: pr.2.toks

/-- The parameter nodes an optional segment parses to, in source order. -/
def segNodes : Option (ParamToks × List (Tok × ParamToks)) →
    List (Node IndexedParameter)
  | none => []
  | some (f, pairs) => f.node :: pairs.map fun pr => pr.2.node

/-- Well-formedness of an optional segment. -/
def SegWf : Option (ParamToks × List (Tok × ParamToks)) → Prop
  | none => True
  | some (f, pairs) => f.wf ∧ ∀ pr ∈ pairs, pr.1.kind = Token.Comma ∧ pr.2.wf

/-- The segment is maximal before `rest`: an empty segment requires the
type-name probe to fail at `rest`'s head, a non-empty one requires `rest` not
to begin with a comma. -/
def SegStop : Option (ParamToks × List (Tok × ParamToks)) → List Tok → Prop
  | none, rest => tokenTypeName (headKind rest) = none
  | some _, rest => headKind rest ≠ Token.Comma

/-- Full run of the parameter-list stage over any well-formed maximal
segment: it produces exactly the segment's nodes in source order, consumes
exactly the segment's tokens, and records nothing. -/
theorem Parser.event_params_run (seg : Option (ParamToks × List (Tok × ParamToks)))
    (p : Parser) (rest : List Tok) (hp : p.tokens = segToks seg ++ rest)
    (hwf : SegWf seg) (hstop : SegStop seg rest) :
    p.event_params = (segNodes seg, ⟨rest, p.errors⟩) := by
  cases seg with
  | none =>
    simp only [segToks, List.nil_append] at hp
    have hstop' : tokenTypeName (headKind rest) = none := hstop
    have htn := p.type_name_of_none
      (by rw [Parser.current_kind_eq_headKind, hp]; exact hstop')
    have hip := p.indexed_parameter_none
      (by unfold Parser.indexed_parameter; rw [htn])
    unfold Parser.event_params
    rw [hip]
    cases p with
    | mk toks errs =>
      simp only [] at hp
      subst hp
      simp [segNodes]
  | some fp =>
    obtain ⟨f, pairs⟩ := fp
    obtain ⟨hfwf, hpwf⟩ : f.wf ∧ ∀ pr ∈ pairs,
        pr.1.kind = Token.Comma ∧ pr.2.wf := hwf
    have hstop' : headKind rest ≠ Token.Comma := hstop
    have hip := Parser.indexed_parameter_run f p
      ((pairs.flatMap fun pr => pr.1 :: pr.2.toks) ++ rest)
      (by rw [hp]; simp [segToks, List.append_assoc]) hfwf
    unfold Parser.event_params
    rw [hip]
    dsimp only
    rw [Parser.event_params_loop_run pairs _ [f.node] rest rfl hpwf hstop']
    simp [segNodes]

/-- C7: for an event whose header tokens are in place, the params list is
empty exactly when the first indexed-parameter attempt (the type-name probe
at the token after `(`) fails; in that case a `)` must follow immediately or
a diagnostic is recorded; and for every event — with an empty parameter list
or with any well-formed parameter segment — the anonymous flag is set if and
only if the token following the consumed `)` is the `anonymous` keyword. -/
theorem C7_event_params_anonymous (p : Parser) (n : Node ContractPart)
    (p' : Parser) (et nt pt : Tok) (rest : List Tok)
    (hp : p.tokens = et :: nt :: pt :: rest)
    (hnt : nt.kind = Token.Identifier) (hpt : pt.kind = Token.ParenOpen)
    (hs : p.event_definition = (some n, p')) :
    ∃ e : EventDefinition, n.value = ContractPart.EventDefinition e ∧
      (e.params = [] ↔ tokenTypeName (headKind rest) = none) ∧
      (tokenTypeName (headKind rest) = none →
        headKind rest ≠ Token.ParenClose →
        p.errors.length < p'.errors.length) ∧
      (∀ (seg : Option (ParamToks × List (Tok × ParamToks))) (cp : Tok)
         (after : List Tok),
        rest = segToks seg ++ cp :: after → SegWf seg →
        cp.kind = Token.ParenClose →
        (e.anonymous = true ↔ headKind after = Token.KeywordAnonymous)) := by
  obtain ⟨e, hv, hparams, hanon, hp'⟩ := p.event_definition_parts n p' hs
  have hq : (((p.start_then_consume).2.expect_str_node
      Token.Identifier).2.expect Token.ParenOpen) = (⟨rest, p.errors⟩ : Parser) := by
    dsimp only [Parser.start_then_consume]
    rw [p.consume_of_cons et _ hp]
    rw [Parser.expect_node_of_kind _ _
      (by rw [Parser.current_of_cons _ nt _ rfl]; exact hnt)]
    dsimp only
    rw [Parser.consume_of_cons _ nt _ rfl]
    rw [Parser.expect_of_kind _ _
      (by rw [Parser.current_of_cons _ pt _ rfl]; exact hpt)]
    rw [Parser.consume_of_cons _ pt _ rfl]
  rw [hq] at hparams hanon hp'
  have hcur : (⟨rest, p.errors⟩ : Parser).current.kind = headKind rest :=
    Parser.current_kind_eq_headKind _
  refine ⟨e, hv, ?_, ?_, ?_⟩
  · constructor
    · intro hemp
      by_contra hprobe
      obtain ⟨ty, hty⟩ := Option.ne_none_iff_exists'.mp hprobe
      have htn := (⟨rest, p.errors⟩ : Parser).type_name_of_some ty
        (by rw [hcur]; exact hty)
      have hip : ∃ param p2, (⟨rest, p.errors⟩ : Parser).indexed_parameter
          = (some param, p2) := by
        unfold Parser.indexed_parameter
        rw [htn]
        exact ⟨_, _, rfl⟩
      obtain ⟨param, p2, hip⟩ := hip
      rw [hparams] at hemp
      unfold Parser.event_params at hemp
      rw [hip] at hemp
      dsimp only at hemp
      obtain ⟨tail, htail⟩ := p2.event_params_loop_extends [param]
      rw [htail] at hemp
      simp at hemp
    · intro hprobe
      have htn := (⟨rest, p.errors⟩ : Parser).type_name_of_none
        (by rw [hcur]; exact hprobe)
      have hip := (⟨rest, p.errors⟩ : Parser).indexed_parameter_none
        (by unfold Parser.indexed_parameter; rw [htn])
      rw [hparams]
      unfold Parser.event_params
      rw [hip]
  · intro hprobe hnp
    have htn := (⟨rest, p.errors⟩ : Parser).type_name_of_none
      (by rw [hcur]; exact hprobe)
    have hip := (⟨rest, p.errors⟩ : Parser).indexed_parameter_none
      (by unfold Parser.indexed_parameter; rw [htn])
    have hep : (⟨rest, p.errors⟩ : Parser).event_params
        = ([], (⟨rest, p.errors⟩ : Parser)) := by
      unfold Parser.event_params
      rw [hip]
    rw [hp', hep]
    dsimp only
    rw [Parser.expect_of_ne _ _ (by rw [hcur]; exact hnp)]
    refine Nat.lt_of_lt_of_le ?_ (Parser.Evolves.errors_le
      ((Parser.allow_evolves _ _).trans (Parser.expect_end_evolves _ _)))
    rw [Parser.error_errors_length]
    dsimp only
    omega
  · intro seg cp after hrest hwf hcp
    subst hrest
    have hstop : SegStop seg (cp :: after) := by
      cases seg with
      | none =>
        show tokenTypeName (headKind (cp :: after)) = none
        rw [headKind, hcp]
        rfl
      | some fp =>
        show headKind (cp :: after) ≠ Token.Comma
        rw [headKind, hcp]
        intro hc
        cases hc
    have hep := Parser.event_params_run seg
      (⟨segToks seg ++ cp :: after, p.errors⟩ : Parser) (cp :: after)
      rfl hwf hstop
    rw [hep] at hanon
    dsimp only at hanon
    rw [Parser.expect_of_kind _ _
      (by rw [Parser.current_of_cons _ cp after rfl]; exact hcp)] at hanon
    rw [Parser.consume_of_cons _ cp after rfl] at hanon
    by_cases ha : headKind after = Token.KeywordAnonymous
    · rw [Parser.allow_pos _ _
        (by rw [Parser.current_kind_eq_headKind]; exact ha)] at hanon
      simp [hanon, ha]
    · rw [Parser.allow_neg _ _
        (by rw [Parser.current_kind_eq_headKind]; exact ha)] at hanon
      simp [hanon, ha]

/-- The tokens of the repo test `event Alcoholics() anonymous;`. -/
def exAnon : List Tok := [
  ⟨Token.DeclarationEvent, 78, 83, "event"⟩,
  ⟨Token.Identifier, 84, 94, "Alcoholics"⟩,
  ⟨Token.ParenOpen, 94, 95, "("⟩,
  ⟨Token.ParenClose, 95, 96, ")"⟩,
  ⟨Token.KeywordAnonymous, 97, 106, "anonymous"⟩,
  ⟨Token.Semicolon, 106, 107, ";"⟩]

/-- The tokens following `event E(` in `event E(bool a) anonymous;`. -/
def exAnonParamTail : List Tok := [
  ⟨Token.TypeBool, 8, 12, "bool"⟩,
  ⟨Token.Identifier, 13, 14, "a"⟩,
  ⟨Token.ParenClose, 14, 15, ")"⟩,
  ⟨Token.KeywordAnonymous, 16, 25, "anonymous"⟩,
  ⟨Token.Semicolon, 25, 26, ";"⟩]

/-- The tokens of `event E(bool a) anonymous;` — an anonymous event with a
non-empty parameter list. -/
def exAnonParam : List Tok :=
  ⟨Token.DeclarationEvent, 0, 5, "event"⟩ ::
  ⟨Token.Identifier, 6, 7, "E"⟩ ::
  ⟨Token.ParenOpen, 7, 8, "("⟩ :: exAnonParamTail

/-- Witness for C7 on `event E(bool a) anonymous;`: an event with a
parameter, where the params list is non-empty (the probe succeeds) and the
anonymous flag is set because `anonymous` follows the consumed `)`. -/
theorem C7_event_params_anonymous_witness :
    ((Parser.mk exAnonParam []).event_definition =
      (some ⟨0, 26, ContractPart.EventDefinition ⟨true, ⟨6, 7, "E"⟩,
        [⟨8, 14, ⟨false, ⟨8, 12, ElementaryTypeName.Bool⟩, ⟨13, 14, "a"⟩⟩⟩]⟩⟩,
       ⟨[], []⟩)) ∧
    ∃ e : EventDefinition,
      (⟨0, 26, ContractPart.EventDefinition ⟨true, ⟨6, 7, "E"⟩,
        [⟨8, 14, ⟨false, ⟨8, 12, ElementaryTypeName.Bool⟩, ⟨13, 14, "a"⟩⟩⟩]⟩⟩ :
        Node ContractPart).value = ContractPart.EventDefinition e ∧
      (e.params = [] ↔ tokenTypeName (headKind exAnonParamTail) = none) ∧
      (tokenTypeName (headKind exAnonParamTail) = none →
        headKind exAnonParamTail ≠ Token.ParenClose →
        (Parser.mk exAnonParam []).errors.length <
          (Parser.mk ([] : List Tok) []).errors.length) ∧
      (∀ (seg : Option (ParamToks × List (Tok × ParamToks))) (cp : Tok)
         (after : List Tok),
        exAnonParamTail = segToks seg ++ cp :: after → SegWf seg →
        cp.kind = Token.ParenClose →
        (e.anonymous = true ↔ headKind after = Token.KeywordAnonymous)) := by
  constructor
  · simp [Parser.event_definition, Parser.event_params,
      Parser.event_params_loop, Parser.indexed_parameter,
      Parser.start_then_consume, Parser.expect_str_node, Parser.expect,
      Parser.expect_end, Parser.allow, Parser.consume, Parser.current,
      Parser.type_name, tokenTypeName, Parser.error, exAnonParam,
      exAnonParamTail]
  · exact C7_event_params_anonymous (Parser.mk exAnonParam [])
      ⟨0, 26, ContractPart.EventDefinition ⟨true, ⟨6, 7, "E"⟩,
        [⟨8, 14, ⟨false, ⟨8, 12, ElementaryTypeName.Bool⟩, ⟨13, 14, "a"⟩⟩⟩]⟩⟩
      (Parser.mk ([] : List Tok) [])
      ⟨Token.DeclarationEvent, 0, 5, "event"⟩
      ⟨Token.Identifier, 6, 7, "E"⟩
      ⟨Token.ParenOpen, 7, 8, "("⟩
      exAnonParamTail
      rfl rfl rfl
      (by simp [Parser.event_definition, Parser.event_params,
        Parser.event_params_loop, Parser.indexed_parameter,
        Parser.start_then_consume, Parser.expect_str_node, Parser.expect,
        Parser.expect_end, Parser.allow, Parser.consume, Parser.current,
        Parser.type_name, tokenTypeName, Parser.error, exAnonParam,
        exAnonParamTail])

theorem Parser.allow_errors (p : Parser) (t : Token) :
    (p.allow t).2.errors = p.errors := by
  unfold Parser.allow
  split <;> rfl

/-- The tokens of the repo test `event Horizon(int32 indexed foo, bool
bar);`. -/
def exHorizon : List Tok := [
  ⟨Token.DeclarationEvent, 45, 50, "event"⟩,
  ⟨Token.Identifier, 51, 58, "Horizon"⟩,
  ⟨Token.ParenOpen, 58, 59, "("⟩,
  ⟨Token.TypeInt 4, 59, 64, "int32"⟩,
  ⟨Token.KeywordIndexed, 65, 72, "indexed"⟩,
  ⟨Token.Identifier, 73, 76, "foo"⟩,
  ⟨Token.Comma, 76, 77, ","⟩,
  ⟨Token.TypeBool, 78, 82, "bool"⟩,
  ⟨Token.Identifier, 83, 86, "bar"⟩,
  ⟨Token.ParenClose, 86, 87, ")"⟩,
  ⟨Token.Semicolon, 87, 88, ";"⟩]

/-- C8: an indexed parameter requires a type name (failing without one) and
then an identifier (reported when absent); its `indexed` flag is set if and
only if the `indexed` keyword sits between the type name and the identifier;
its span runs from the type name's start to the name identifier's end; and an
event's parameters appear in the params list in source order (checked on the
repo's `event Horizon(int32 indexed foo, bool bar);` vector). -/
theorem C8_indexed_parameter :
    (∀ p : Parser, (p.indexed_parameter).1 = none ↔ (p.type_name).1 = none) ∧
    (∀ (p : Parser) (n : Node IndexedParameter) (p' : Parser),
      p.indexed_parameter = (some n, p') →
      n.start = n.value.type_name.start ∧ n.stop = n.value.name.stop) ∧
    (∀ (p : Parser) (n : Node IndexedParameter) (p' : Parser) (tt : Tok)
       (rest : List Tok),
      p.tokens = tt :: rest → p.indexed_parameter = (some n, p') →
      (n.value.indexed = true ↔ headKind rest = Token.KeywordIndexed)) ∧
    (∀ (p : Parser) (tn : Node ElementaryTypeName) (p1 : Parser),
      p.type_name = (some tn, p1) →
      ((p1.allow Token.KeywordIndexed).2).current.kind ≠ Token.Identifier →
      p.errors.length < ((p.indexed_parameter).2).errors.length) ∧
    ((Parser.mk exHorizon []).event_definition =
      (some ⟨45, 88, ContractPart.EventDefinition ⟨false, ⟨51, 58, "Horizon"⟩,
        [⟨59, 76, ⟨true, ⟨59, 64, ElementaryTypeName.Int 4⟩, ⟨73, 76, "foo"⟩⟩⟩,
         ⟨78, 86, ⟨false, ⟨78, 82, ElementaryTypeName.Bool⟩, ⟨83, 86, "bar"⟩⟩⟩]⟩⟩,
       ⟨[], []⟩)) := by
  refine ⟨?_, ?_, ?_, ?_, ?_⟩
  · intro p
    cases ht : p.type_name with
    | mk o p1 =>
      cases o with
      | none =>
        unfold Parser.indexed_parameter
        rw [ht]
        simp
      | some tn =>
        unfold Parser.indexed_parameter
        rw [ht]
        simp
  · intro p n p' hs
    unfold Parser.indexed_parameter at hs
    split at hs
    · simp at hs
    · rename_i tn p1 hr
      dsimp only at hs
      injection hs with hs1 hs2
      injection hs1 with hs1
      subst hs1
      exact ⟨rfl, rfl⟩
  · intro p n p' tt rest hp hs
    cases hty : tokenTypeName tt.kind with
    | none =>
      have htn := p.type_name_of_none
        (by rw [p.current_of_cons tt rest hp]; exact hty)
      have := p.indexed_parameter_none
        (by unfold Parser.indexed_parameter; rw [htn])
      rw [this] at hs
      simp at hs
    | some ty =>
      have htn := p.type_name_of_some ty
        (by rw [p.current_of_cons tt rest hp]; exact hty)
      unfold Parser.indexed_parameter at hs
      rw [htn] at hs
      dsimp only at hs
      rw [p.consume_of_cons tt rest hp] at hs
      by_cases hi : headKind rest = Token.KeywordIndexed
      · rw [Parser.allow_pos _ _
          (by rw [Parser.current_kind_eq_headKind]; exact hi)] at hs
        dsimp only at hs
        injection hs with hs1 hs2
        injection hs1 with hs1
        subst hs1
        simp [hi]
      · rw [Parser.allow_neg _ _
          (by rw [Parser.current_kind_eq_headKind]; exact hi)] at hs
        dsimp only at hs
        injection hs with hs1 hs2
        injection hs1 with hs1
        subst hs1
        simp [hi]
  · intro p tn p1 ht hid
    unfold Parser.indexed_parameter
    rw [ht]
    dsimp only [Parser.expect_str_node]
    rw [Parser.expect_of_ne _ _ hid]
    rw [Parser.error_errors_length, Parser.allow_errors]
    have h1 : p1.errors = p.errors := by
      have : p1 = (p.type_name).2 := by rw [ht]
      rw [this, Parser.type_name_errors]
    rw [h1]
    omega
  · simp [Parser.event_definition, Parser.event_params,
      Parser.event_params_loop, Parser.indexed_parameter,
      Parser.start_then_consume, Parser.expect_str_node, Parser.expect,
      Parser.expect_end, Parser.allow, Parser.consume, Parser.current,
      Parser.type_name, tokenTypeName, Parser.error, exHorizon]

/-- Witness for C8 on the `bool bar` fragment: the probe succeeds, the span
runs from the type's start to the identifier's end, and the flag is false
because no `indexed` keyword follows the type. -/
theorem C8_indexed_parameter_witness :
    ((⟨78, 86, ⟨false, ⟨78, 82, ElementaryTypeName.Bool⟩, ⟨83, 86, "bar"⟩⟩⟩ :
      Node IndexedParameter).start =
      (⟨78, 86, ⟨false, ⟨78, 82, ElementaryTypeName.Bool⟩,
        ⟨83, 86, "bar"⟩⟩⟩ : Node IndexedParameter).value.type_name.start ∧
     (⟨78, 86, ⟨false, ⟨78, 82, ElementaryTypeName.Bool⟩, ⟨83, 86, "bar"⟩⟩⟩ :
      Node IndexedParameter).stop =
      (⟨78, 86, ⟨false, ⟨78, 82, ElementaryTypeName.Bool⟩,
        ⟨83, 86, "bar"⟩⟩⟩ : Node IndexedParameter).value.name.stop) ∧
    ((⟨78, 86, ⟨false, ⟨78, 82, ElementaryTypeName.Bool⟩, ⟨83, 86, "bar"⟩⟩⟩ :
      Node IndexedParameter).value.indexed = true ↔
      headKind [⟨Token.Identifier, 83, 86, "bar"⟩] = Token.KeywordIndexed) := by
  constructor
  · apply C8_indexed_parameter.2.1
      (Parser.mk [⟨Token.TypeBool, 78, 82, "bool"⟩,
        ⟨Token.Identifier, 83, 86, "bar"⟩] [])
      _ (Parser.mk ([] : List Tok) [])
    simp [Parser.indexed_parameter, Parser.type_name, Parser.allow,
      Parser.expect_str_node, Parser.expect, Parser.consume, Parser.current,
      tokenTypeName]
  · apply C8_indexed_parameter.2.2.1
      (Parser.mk [⟨Token.TypeBool, 78, 82, "bool"⟩,
        ⟨Token.Identifier, 83, 86, "bar"⟩] [])
      _ (Parser.mk ([] : List Tok) [])
      ⟨Token.TypeBool, 78, 82, "bool"⟩
      [⟨Token.Identifier, 83, 86, "bar"⟩]
      rfl
    simp [Parser.indexed_parameter, Parser.type_name, Parser.allow,
      Parser.expect_str_node, Parser.expect, Parser.consume, Parser.current,
      tokenTypeName]

/-- When the current token is none of the four visibility keywords,
`visibility` yields `Unspecified` and consumes nothing. -/
theorem Parser.visibility_other (p : Parser)
    (h1 : p.current.kind ≠ Token.KeywordPublic)
    (h2 : p.current.kind ≠ Token.KeywordInternal)
    (h3 : p.current.kind ≠ Token.KeywordPrivate)
    (h4 : p.current.kind ≠ Token.KeywordConstant) :
    p.visibility = (Visibility.Unspecified, p) := by
  unfold Parser.visibility
  split
  · rename_i h
    exact absurd h h1
  · rename_i h
    exact absurd h h2
  · rename_i h
    exact absurd h h3
  · rename_i h
    exact absurd h h4
  · rfl

/-- C9: after a type name is obtained in a contract body the state-variable
branch parses an optional visibility keyword — `public`, `internal`,
`private`, `constant` map to their variants consuming exactly that token,
anything else yields `Unspecified` consuming nothing and never recording a
diagnostic — then requires an identifier (reported when absent) and a
terminating `;` (reported when absent), and every StateVariableDeclaration
this parser produces has its `init` field absent. -/
theorem C9_state_variable_visibility :
    (∀ p : Parser, p.current.kind = Token.KeywordPublic →
      p.visibility = (Visibility.Public, p.consume)) ∧
    (∀ p : Parser, p.current.kind = Token.KeywordInternal →
      p.visibility = (Visibility.Internal, p.consume)) ∧
    (∀ p : Parser, p.current.kind = Token.KeywordPrivate →
      p.visibility = (Visibility.Private, p.consume)) ∧
    (∀ p : Parser, p.current.kind = Token.KeywordConstant →
      p.visibility = (Visibility.Constant, p.consume)) ∧
    (∀ p : Parser, p.current.kind ≠ Token.KeywordPublic →
      p.current.kind ≠ Token.KeywordInternal →
      p.current.kind ≠ Token.KeywordPrivate →
      p.current.kind ≠ Token.KeywordConstant →
      p.visibility = (Visibility.Unspecified, p)) ∧
    (∀ p : Parser, (p.visibility).2.errors = p.errors) ∧
    (∀ (p : Parser) (n : Node ContractPart) (p' : Parser)
       (s : StateVariableDeclaration),
      p.contract_part = (some n, p') →
      n.value = ContractPart.StateVariableDeclaration s → s.init = none) ∧
    (∀ (p : Parser) (tn : Node ElementaryTypeName) (p1 : Parser),
      p.current.kind ≠ Token.DeclarationEvent →
      p.type_name = (some tn, p1) →
      (p1.visibility).2.current.kind ≠ Token.Identifier →
      p.errors.length < (p.contract_part).2.errors.length) ∧
    (∀ (p : Parser) (tt it : Tok) (rest : List Tok) (ty : ElementaryTypeName),
      p.tokens = tt :: it :: rest →
      tokenTypeName tt.kind = some ty → it.kind = Token.Identifier →
      headKind rest ≠ Token.Semicolon →
      p.errors.length < (p.contract_part).2.errors.length) := by
  refine ⟨?_, ?_, ?_, ?_, ?_, ?_, ?_, ?_, ?_⟩
  · intro p h
    unfold Parser.visibility
    rw [h]
  · intro p h
    unfold Parser.visibility
    rw [h]
  · intro p h
    unfold Parser.visibility
    rw [h]
  · intro p h
    unfold Parser.visibility
    rw [h]
  · exact Parser.visibility_other
  · exact Parser.visibility_errors
  · intro p n p' s hs hv
    unfold Parser.contract_part at hs
    split at hs
    · obtain ⟨e, hve, -, -, -⟩ := Parser.event_definition_parts p n p' hs
      rw [hv] at hve
      simp at hve
    · split at hs
      · simp at hs
      · rename_i tn p1 hr
        dsimp only at hs
        injection hs with hs1 hs2
        injection hs1 with hs1
        subst hs1
        injection hv with hv
        rw [← hv]
  · intro p tn p1 hk hr hid
    exact p.statevar_missing_name_reported tn p1 hk hr hid
  · intro p tt it rest ty hp hty hit hsemi
    have hk : p.current.kind ≠ Token.DeclarationEvent := by
      rw [p.current_of_cons tt _ hp]
      intro hc
      rw [hc] at hty
      simp [tokenTypeName] at hty
    have htn := p.type_name_of_some ty
      (by rw [p.current_of_cons tt _ hp]; exact hty)
    unfold Parser.contract_part
    split
    · rename_i hkind
      exact absurd hkind hk
    · split
      · rename_i p1' hr'
        rw [htn] at hr'
        simp at hr'
      · rename_i tn' p1' hr'
        rw [htn] at hr'
        injection hr' with ha hb
        dsimp only
        rw [← hb]
        rw [p.consume_of_cons tt _ hp]
        have hvis : (⟨it :: rest, p.errors⟩ : Parser).visibility =
            (Visibility.Unspecified, ⟨it :: rest, p.errors⟩) := by
          apply Parser.visibility_other <;>
            · rw [Parser.current_of_cons _ it rest rfl, hit]
              intro hc
              cases hc
        rw [hvis]
        dsimp only
        rw [Parser.expect_node_of_kind _ _
          (by rw [Parser.current_of_cons _ it rest rfl]; exact hit)]
        dsimp only
        rw [Parser.consume_of_cons _ it rest rfl]
        dsimp only [Parser.expect_end]
        rw [Parser.expect_of_ne _ _
          (by rw [Parser.current_kind_eq_headKind]; exact hsemi)]
        rw [Parser.error_errors_length]
        dsimp only
        omega

/-- Witness for C9 on the repo's own `bytes10 public doge;` and `int32 foo;`
test fragments: `public` maps to `Visibility.Public` consuming one token, and
the produced StateVariableDeclaration has no initializer. -/
theorem C9_state_variable_visibility_witness :
    (Parser.mk [⟨Token.KeywordPublic, 80, 86, "public"⟩,
      ⟨Token.Identifier, 87, 91, "doge"⟩] []).visibility =
      (Visibility.Public,
       (Parser.mk [⟨Token.KeywordPublic, 80, 86, "public"⟩,
        ⟨Token.Identifier, 87, 91, "doge"⟩] []).consume) ∧
    (⟨⟨45, 50, ElementaryTypeName.Int 4⟩, Visibility.Unspecified,
      ⟨51, 54, "foo"⟩, none⟩ : StateVariableDeclaration).init = none := by
  constructor
  · exact C9_state_variable_visibility.1 _ rfl
  · exact C9_state_variable_visibility.2.2.2.2.2.2.1
      (Parser.mk [⟨Token.TypeInt 4, 45, 50, "int32"⟩,
        ⟨Token.Identifier, 51, 54, "foo"⟩, ⟨Token.Semicolon, 54, 55, ";"⟩] [])
      ⟨45, 55, ContractPart.StateVariableDeclaration
        ⟨⟨45, 50, ElementaryTypeName.Int 4⟩, Visibility.Unspecified,
         ⟨51, 54, "foo"⟩, none⟩⟩
      (Parser.mk ([] : List Tok) [])
      ⟨⟨45, 50, ElementaryTypeName.Int 4⟩, Visibility.Unspecified,
       ⟨51, 54, "foo"⟩, none⟩
      (by simp [Parser.contract_part, Parser.visibility, Parser.type_name,
        Parser.expect_str_node, Parser.expect, Parser.expect_end,
        Parser.consume, Parser.current, tokenTypeName])
      rfl

/-- The tokens of `event E(bool a,,bool b);` — a failed comma continuation in
the middle of an event parameter list. -/
def exDoubleComma : List Tok := [
  ⟨Token.DeclarationEvent, 0, 5, "event"⟩,
  ⟨Token.Identifier, 6, 7, "E"⟩,
  ⟨Token.ParenOpen, 7, 8, "("⟩,
  ⟨Token.TypeBool, 8, 12, "bool"⟩,
  ⟨Token.Identifier, 13, 14, "a"⟩,
  ⟨Token.Comma, 14, 15, ","⟩,
  ⟨Token.Comma, 15, 16, ","⟩,
  ⟨Token.TypeBool, 17, 21, "bool"⟩,
  ⟨Token.Identifier, 22, 23, "b"⟩,
  ⟨Token.ParenClose, 23, 24, ")"⟩,
  ⟨Token.Semicolon, 24, 25, ";"⟩]

/-- C10: after recording a diagnostic for a comma that is not followed by a
valid indexed parameter, event parsing continues rather than aborting: the
comma loop proceeds from the error state with the builder intact, later
`, parameter` pairs are still appended, and an EventDefinition node holding
every successfully parsed parameter is still produced (demonstrated on
`event E(bool a,,bool b);`, which yields params `[a, b]` and one recorded
diagnostic). -/
theorem C10_dangling_comma_continues :
    (∀ (p : Parser) (b : List (Node IndexedParameter)) (q : Parser),
      p.current.kind = Token.Comma →
      (p.consume).indexed_parameter = (none, q) →
      p.event_params_loop b = (q.error).event_params_loop b) ∧
    (∀ p : Parser, ∃ n p', p.event_definition = (some n, p')) ∧
    ((Parser.mk exDoubleComma []).event_definition =
      (some ⟨0, 25, ContractPart.EventDefinition ⟨false, ⟨6, 7, "E"⟩,
        [⟨8, 14, ⟨false, ⟨8, 12, ElementaryTypeName.Bool⟩, ⟨13, 14, "a"⟩⟩⟩,
         ⟨17, 23, ⟨false, ⟨17, 21, ElementaryTypeName.Bool⟩, ⟨22, 23, "b"⟩⟩⟩]⟩⟩,
       ⟨[], [15]⟩)) := by
  refine ⟨?_, Parser.event_definition_isSome, ?_⟩
  · intro p b q hc hr
    exact p.event_params_loop_step_none b q hc hr
  · simp [Parser.event_definition, Parser.event_params,
      Parser.event_params_loop, Parser.indexed_parameter,
      Parser.start_then_consume, Parser.expect_str_node, Parser.expect,
      Parser.expect_end, Parser.allow, Parser.consume, Parser.current,
      Parser.type_name, tokenTypeName, Parser.error, exDoubleComma]

/-- Witness for C10: at a comma followed by `)` the loop steps into the
error-state continuation with the builder preserved. -/
theorem C10_dangling_comma_continues_witness :
    (Parser.mk [⟨Token.Comma, 14, 15, ","⟩, ⟨Token.ParenClose, 15, 16, ")"⟩]
      []).event_params_loop [] =
      ((Parser.mk [⟨Token.ParenClose, 15, 16, ")"⟩] []).error).event_params_loop
        [] :=
  C10_dangling_comma_continues.1
    (Parser.mk [⟨Token.Comma, 14, 15, ","⟩, ⟨Token.ParenClose, 15, 16, ")"⟩] [])
    []
    (Parser.mk [⟨Token.ParenClose, 15, 16, ")"⟩] [])
    (by simp [Parser.current])
    (by simp [Parser.indexed_parameter, Parser.type_name, Parser.consume,
      Parser.current, tokenTypeName])
